import Mathlib

/-!
The klzip tool: header framing, chunked footer and atomic file transcoding.

A shallow embedding of `xflate.go`, `compress.go` and `decompress.go`.

* Go strings and byte slices are lists of byte values (`Nat`, meant `< 256`).
* An `io.Writer` is a `Writer`: the bytes accepted so far and the number of bytes
  it can still accept before a write fails (`none`: it never fails).
* The file system is a map from paths to contents; files made by
  `renameio.TempFile` live under their own constructor of `Path`.
* External capabilities (the DEFLATE coders, `hash/crc32`, the gzip reader and
  writer of the compression library) are modelled from their documented formats.
-/

namespace Klzip

set_option maxRecDepth 100000

/-- Byte strings: Go `string` and `[]byte` values. -/
abbrev Bytes := List Nat

/-! ## Errors -/

/-- The fallible external calls of the three file operations, in source order. -/
inductive Step
  | statInput | openInput | tempFile | newWriter | newReader | copy | closeInput
  | flush | closeWriter | closeReader | flushBuffer | closeReplace | statOutput
  | removeInput
  deriving DecidableEq, Repr

/-- Error values returned by the program. -/
inductive Err
  /-- Error `errors.New("output file already exists")` -/
  | outputExists
  /-- Error `errors.New("gzip.Write: Extra data is too large")` -/
  | extraTooLarge
  /-- Error `errors.New("gzip.Write: non-Latin-1 header string")` -/
  | nonLatin1
  /-- the writer accepted fewer bytes than it was given -/
  | shortWrite
  /-- the file does not exist -/
  | notExist
  /-- Error `gzip.ErrHeader` -/
  | badHeader
  /-- Error `gzip.ErrChecksum` -/
  | badChecksum
  /-- a corrupt or truncated DEFLATE payload -/
  | corrupt
  /-- Error `gzip: invalid compression level` -/
  | badLevel
  /-- a failure of the environment at the given call -/
  | io (s : Step)
  /-- Error `errors.Wrap(err, msg)` -/
  | wrap (msg : String) (e : Err)
  deriving DecidableEq, Repr

/-! ## Writers -/

/-- An `io.Writer`: `out` holds every byte accepted so far, `room` how many more
bytes are accepted before a write fails (`none`: unbounded). -/
structure Writer where
  out : Bytes
  room : Option Nat
  deriving DecidableEq, Repr

/-- The call `w.Write(p)`: the writer afterwards, the count `n` and the error. When `p`
does not fit, the bytes that fit are accepted and the call fails. -/
def Writer.write (w : Writer) (p : Bytes) : Writer × Nat × Option Err :=
  match w.room with
  | none => (⟨w.out ++ p, none⟩, p.length, none)
  | some r =>
    if p.length ≤ r then (⟨w.out ++ p, some (r - p.length)⟩, p.length, none)
    else (⟨w.out ++ p.take r, some 0⟩, r, some Err.shortWrite)

/-! ## Integers -/

/-- Go conversion `uint32(x)` of a signed integer: reduction modulo `2^32`. -/
def uint32 (x : Int) : Nat := (x % 4294967296).toNat

/-- Go conversion `uint16(x)` of a non-negative integer. -/
def uint16 (x : Nat) : Nat := x % 65536

/-- Models `binary.LittleEndian.PutUint32`. -/
def putUint32 (v : Nat) : Bytes :=
  [v % 256, (v >>> 8) % 256, (v >>> 16) % 256, (v >>> 24) % 256]

/-- Models `binary.LittleEndian.PutUint16`. -/
def putUint16 (v : Nat) : Bytes :=
  [v % 256, (v >>> 8) % 256]

/-! ## Strings: the `range` loop of Go -/

/-- The rune U+FFFD that `range` yields for a byte that is not valid UTF-8. -/
def runeError : Nat := 0xFFFD

/-- Continuation byte test (`0x80..0xBF`). -/
def isCont (b : Nat) : Bool := 0x80 ≤ b && b ≤ 0xBF

/-- First rune of a non-empty Go string and its width in bytes, as `range` decodes it
(`utf8.DecodeRuneInString`): an invalid or short sequence gives `(U+FFFD, 1)`. -/
def decodeRune : Bytes → Nat × Nat
  | [] => (runeError, 0)
  | s0 :: rest =>
    if s0 < 0x80 then (s0, 1)
    else if s0 < 0xC2 then (runeError, 1)
    else if s0 < 0xE0 then
      match rest with
      | s1 :: _ =>
        if isCont s1 then (((s0 &&& 0x1F) <<< 6) ||| (s1 &&& 0x3F), 2) else (runeError, 1)
      | _ => (runeError, 1)
    else if s0 < 0xF0 then
      match rest with
      | s1 :: s2 :: _ =>
        let lo := if s0 = 0xE0 then 0xA0 else 0x80
        let hi := if s0 = 0xED then 0x9F else 0xBF
        if lo ≤ s1 ∧ s1 ≤ hi ∧ isCont s2 then
          (((s0 &&& 0x0F) <<< 12) ||| ((s1 &&& 0x3F) <<< 6) ||| (s2 &&& 0x3F), 3)
        else (runeError, 1)
      | _ => (runeError, 1)
    else if s0 < 0xF5 then
      match rest with
      | s1 :: s2 :: s3 :: _ =>
        let lo := if s0 = 0xF0 then 0x90 else 0x80
        let hi := if s0 = 0xF4 then 0x8F else 0xBF
        if lo ≤ s1 ∧ s1 ≤ hi ∧ isCont s2 ∧ isCont s3 then
          (((s0 &&& 0x07) <<< 18) ||| ((s1 &&& 0x3F) <<< 12) ||| ((s2 &&& 0x3F) <<< 6)
            ||| (s3 &&& 0x3F), 4)
        else (runeError, 1)
      | _ => (runeError, 1)
    else (runeError, 1)

/-- Runes of `for _, v := range s`, where the first `skip` bytes belong to a rune
that was already produced. -/
def runesFrom : Nat → Bytes → List Nat
  | _, [] => []
  | k + 1, _ :: t => runesFrom k t
  | 0, b :: t => (decodeRune (b :: t)).1 :: runesFrom ((decodeRune (b :: t)).2 - 1) t

/-- The sequence of code points `for _, v := range s` iterates over. -/
def runes (s : Bytes) : List Nat := runesFrom 0 s

/-! ## `xflate.go`: header serialization -/

def gzipID1 : Nat := 0x1f
def gzipID2 : Nat := 0x8b
def gzipDeflate : Nat := 8
def gzipOSUnknown : Nat := 255

/-- Value of `time.Time{}.Unix()`: the zero `time.Time` is 1 January of year 1, UTC. -/
def zeroTimeUnix : Int := -62135596800

/-- The struct `gzip.Header`. `ModTime` is kept as the value of `ModTime.Unix()`; `Extra` is
`none` for a nil slice. The defaults are Go's zero values. -/
structure Header where
  Comment : Bytes := []
  Extra : Option Bytes := none
  ModTime : Int := zeroTimeUnix
  Name : Bytes := []
  OS : Nat := 0
  deriving DecidableEq, Repr

/-- The function `writeBytes`: writes a length-prefixed byte slice to `w`. -/
def writeBytes (w : Writer) (b : Bytes) : Writer × Option Err :=
  if b.length > 0xffff then (w, some Err.extraTooLarge)
  else
    match w.write (putUint16 (uint16 b.length)) with
    | (w1, _, some e) => (w1, some e)
    | (w1, _, none) =>
      match w1.write b with
      | (w2, _, e) => (w2, e)

/-- The function `writeString`: writes a string in GZIP's format (NUL-terminated Latin-1). -/
def writeString (w : Writer) (s : Bytes) : Writer × Option Err :=
  if (runes s).any (fun v => v == 0 || decide (v > 0xff)) then (w, some Err.nonLatin1)
  else
    let needConversion := (runes s).any (fun v => decide (v > 0x7f))
    match (if needConversion then w.write ((runes s).map (· % 256)) else w.write s) with
    | (w1, _, some e) => (w1, some e)
    | (w1, _, none) =>
      match w1.write [0] with
      | (w2, _, e) => (w2, e)

/-- The flag byte `buffer[3]` of `writeGzipHeader`. -/
def headerFlags (header : Header) : Nat :=
  ((0 ||| (if header.Extra ≠ none then 0x04 else 0))
    ||| (if header.Name ≠ [] then 0x08 else 0))
    ||| (if header.Comment ≠ [] then 0x10 else 0)

/-- The 10-byte array `buffer` of `writeGzipHeader`. -/
def headerPrefix (header : Header) : Bytes :=
  [gzipID1, gzipID2, gzipDeflate, headerFlags header]
    ++ putUint32 (uint32 header.ModTime) ++ [0, header.OS]

/-- The function `writeGzipHeader`: the writer afterwards, the returned `n` and the error. -/
def writeGzipHeader (w : Writer) (header : Header) : Writer × Nat × Option Err :=
  match w.write (headerPrefix header) with
  | (w1, n, some e) => (w1, n, some e)
  | (w1, n, none) =>
    match (match header.Extra with
           | some x => writeBytes w1 x
           | none => (w1, none)) with
    | (w2, some e) => (w2, n, some e)
    | (w2, none) =>
      match (if header.Name ≠ [] then writeString w2 header.Name else (w2, none)) with
      | (w3, some e) => (w3, n, some e)
      | (w3, none) =>
        match (if header.Comment ≠ [] then writeString w3 header.Comment else (w3, none)) with
        | (w4, some e) => (w4, n, some e)
        | (w4, none) => (w4, n, none)

/-- ASCII text as a byte string (for literals of the source). -/
def ascii (s : String) : Bytes := s.data.map Char.toNat

/-! ## `hash/crc32` (IEEE polynomial, reflected, bit by bit) -/

/-- One shift of the CRC register. -/
def crcStep (c : Nat) : Nat :=
  if c % 2 = 1 then (c >>> 1) ^^^ 0xEDB88320 else c >>> 1

/-- The register after one more input byte. -/
def crcByte (c b : Nat) : Nat := crcStep^[8] (c ^^^ (b % 256))

/-- The register after the bytes `p` (`crc.Write(p)`). -/
def crcUpdate (c : Nat) (p : Bytes) : Nat := p.foldl crcByte c

/-- Register of `crc32.NewIEEE()` before any byte. -/
def crcInit : Nat := 0xFFFFFFFF

/-- Models `crc.Sum32()` for a register value. -/
def crcSum32 (c : Nat) : Nat := c ^^^ 0xFFFFFFFF

/-- Models `crc32.ChecksumIEEE`. -/
def crc32 (p : Bytes) : Nat := crcSum32 (crcUpdate crcInit p)

/-! ## Paths -/

/-- Models `strings.TrimSuffix`. -/
def trimSuffix (s suffix : Bytes) : Bytes :=
  if suffix <:+ s then s.take (s.length - suffix.length) else s

/-- Models `filepath.Base` (Unix): the last element of a path, trailing slashes removed. -/
def filepathBase (path : Bytes) : Bytes :=
  if path = [] then [46]
  else
    let p := (path.reverse.dropWhile (· == 47)).reverse
    let p := (p.reverse.takeWhile (· != 47)).reverse
    if p = [] then [47] else p

/-! ## External coders -/

/-- The compression library: which levels its writers accept, the DEFLATE stream the
gzip writer and the XFLATE writer produce for a whole input, and the DEFLATE
decoder, which returns the plaintext and the input that follows the stream. -/
structure Codec where
  levelOk : Int → Bool
  deflate : Int → Bytes → Bytes
  xflate : Int → Bytes → Bytes
  inflate : Bytes → Option (Bytes × Bytes)

/-- The coders are inverse to each other on payloads, and levels 1 to 9 are accepted. -/
def Codec.Inverse (cx : Codec) : Prop :=
  (∀ l : Int, 1 ≤ l → l ≤ 9 → cx.levelOk l = true) ∧
  (∀ l B rest, cx.inflate (cx.deflate l B ++ rest) = some (B, rest)) ∧
  (∀ l B rest, cx.inflate (cx.xflate l B ++ rest) = some (B, rest))

/-- A stand-in encoder: every byte is preceded by `1`, the stream ends with `0`. -/
def storedDeflate : Bytes → Bytes
  | [] => [0]
  | b :: t => 1 :: b :: storedDeflate t

/-- The decoder of `storedDeflate`. -/
def storedInflate : Bytes → Option (Bytes × Bytes)
  | 0 :: rest => some ([], rest)
  | 1 :: b :: rest =>
    match storedInflate rest with
    | some (p, r) => some (b :: p, r)
    | none => none
  | _ => none

/-- A concrete instance of the external coders. -/
def storedCodec : Codec where
  levelOk := fun l => decide (-2 ≤ l ∧ l ≤ 9)
  deflate := fun _ B => storedDeflate B
  xflate := fun _ B => storedDeflate B
  inflate := storedInflate

/-! ## The gzip writer and reader of the compression library -/

/-- The 10-byte array `z.buf` of `gzip.Writer`: bytes 4..7 are `uint32(ModTime.Unix())`,
whatever the modification time, byte 8 is 2 for the best compression and 4 for the best
speed. -/
def gzipWriterPrefix (level : Int) (header : Header) : Bytes :=
  [gzipID1, gzipID2, gzipDeflate, headerFlags header]
    ++ putUint32 (uint32 header.ModTime)
    ++ [if level = 9 then 2 else if level = 1 then 4 else 0, header.OS]

/-- Header written lazily by `gzip.Writer` (at the first `Write`, or at `Flush`/`Close`):
the fixed part, then the optional fields as in `writeGzipHeader`. -/
def gzipWriterHeader (w : Writer) (level : Int) (header : Header) : Writer × Option Err :=
  match w.write (gzipWriterPrefix level header) with
  | (w1, _, some e) => (w1, some e)
  | (w1, _, none) =>
    match (match header.Extra with
           | some x => writeBytes w1 x
           | none => (w1, none)) with
    | (w2, some e) => (w2, some e)
    | (w2, none) =>
      match (if header.Name ≠ [] then writeString w2 header.Name else (w2, none)) with
      | (w3, some e) => (w3, some e)
      | (w3, none) =>
        if header.Comment ≠ [] then writeString w3 header.Comment else (w3, none)

/-- Models `binary.LittleEndian.Uint32`. -/
def getUint32 (b0 b1 b2 b3 : Nat) : Nat :=
  b0 ||| (b1 <<< 8) ||| (b2 <<< 16) ||| (b3 <<< 24)

/-- Models `gzip.Reader.readString`: skips a NUL-terminated string of at most 511 bytes; `i` is
the number of bytes already read into the 512-byte buffer. -/
def readString : Nat → Bytes → Option Bytes
  | _, [] => none
  | i, b :: t => if i ≥ 512 then none else if b = 0 then some t else readString (i + 1) t

/-- Models `gzip.Reader.readHeader`: checks the fixed part and skips the optional fields;
returns the input after the header. -/
def readHeader (data : Bytes) : Except Err Bytes :=
  match data with
  | id1 :: id2 :: cm :: flg :: _ :: _ :: _ :: _ :: _ :: _ :: rest =>
    if id1 ≠ gzipID1 ∨ id2 ≠ gzipID2 ∨ cm ≠ gzipDeflate then .error Err.badHeader
    else
      match (if flg &&& 0x04 ≠ 0 then
               match rest with
               | l0 :: l1 :: r =>
                 if r.length < (l0 ||| (l1 <<< 8)) then none else some (r.drop (l0 ||| (l1 <<< 8)))
               | _ => none
             else some rest) with
      | none => .error Err.corrupt
      | some r1 =>
        match (if flg &&& 0x08 ≠ 0 then readString 0 r1 else some r1) with
        | none => .error Err.badHeader
        | some r2 =>
          match (if flg &&& 0x10 ≠ 0 then readString 0 r2 else some r2) with
          | none => .error Err.badHeader
          | some r3 =>
            if flg &&& 0x02 ≠ 0 then
              match r3 with
              | h0 :: h1 :: r4 =>
                if (h0 ||| (h1 <<< 8)) = uint16 (crc32 (data.take (data.length - r3.length)))
                then .ok r4 else .error Err.badHeader
              | _ => .error Err.corrupt
            else .ok r3
  | _ => .error Err.corrupt

/-- One gzip member: header, DEFLATE payload, then the CRC32 and the size modulo `2^32`
of the plaintext, both checked. Returns the plaintext and the input that follows. -/
def gzipMember (cx : Codec) (data : Bytes) : Except Err (Bytes × Bytes) :=
  match readHeader data with
  | .error e => .error e
  | .ok rest =>
    match cx.inflate rest with
    | none => .error Err.corrupt
    | some (plain, rest2) =>
      match rest2 with
      | c0 :: c1 :: c2 :: c3 :: n0 :: n1 :: n2 :: n3 :: rest3 =>
        if getUint32 c0 c1 c2 c3 ≠ crc32 plain
            ∨ getUint32 n0 n1 n2 n3 ≠ plain.length % 4294967296 then
          .error Err.badChecksum
        else .ok (plain, rest3)
      | _ => .error Err.corrupt

/-- Reading a whole gzip stream (`gzip.Reader` in multistream mode): members are decoded
until the input ends; `fuel` bounds the number of members. -/
def gunzip (cx : Codec) : Nat → Bytes → Except Err Bytes
  | 0, _ => .error Err.corrupt
  | fuel + 1, data =>
    match gzipMember cx data with
    | .error e => .error e
    | .ok (plain, rest) =>
      if rest = [] then .ok plain
      else
        match gunzip cx fuel rest with
        | .error e => .error e
        | .ok more => .ok (plain ++ more)

/-! ## File system and environment -/

/-- Paths: files named by the user, and temporary files made by `renameio.TempFile`,
whose names are fresh by construction. -/
inductive Path
  | file (name : Bytes)
  | temp (id : Nat)
  deriving DecidableEq, Repr

/-- The file system: the content of every existing path. -/
abbrev FS := Path → Option Bytes

/-- Sets or removes (`none`) the content at one path. -/
def FS.set (fs : FS) (p : Path) (c : Option Bytes) : FS :=
  fun q => if q = p then c else fs q

/-- Changes made to the file system, in the order they happen. -/
inductive Event
  /-- Event: `renameio.TempFile` created the temporary file -/
  | tempCreated (id : Nat)
  /-- Event: `CloseAtomicallyReplace` renamed the temporary file onto `dest` -/
  | promoted (id : Nat) (dest : Bytes) (content : Bytes)
  /-- Event: `os.Remove(name)` -/
  | removed (name : Bytes)
  /-- the deferred `Cleanup` removed the temporary file -/
  | cleaned (id : Nat)
  deriving DecidableEq, Repr

/-- What the environment decides during one run: which external calls fail, the
identifier of the temporary file, how many bytes the output accepts, the
modification time of the source (Unix seconds) and the sizes of the reads of `io.Copy`. -/
structure Env where
  fails : Step → Bool
  tmpId : Nat
  room : Option Nat
  modTime : Int
  reads : List Nat

/-- Result of a run: the returned error, the file system and the changes made. -/
structure Outcome where
  err : Option Err
  fs : FS
  trace : List Event

/-- Models `os.Stat(name)`: succeeds when the file exists and the call does not fail. -/
def osStat (env : Env) (fs : FS) (s : Step) (name : Bytes) : Option Err :=
  if env.fails s then some (Err.io s)
  else if (fs (Path.file name)).isNone then some Err.notExist
  else none

/-- Models `renameio.TempFile`: creates an empty temporary file under a name not in use. -/
def tempFile (env : Env) (fs : FS) : Except Err FS :=
  if env.fails Step.tempFile then .error (Err.io Step.tempFile)
  else if (fs (Path.temp env.tmpId)).isSome then .error (Err.io Step.tempFile)
  else .ok (fs.set (Path.temp env.tmpId) (some []))

/-- Models `PendingFile.Cleanup` before promotion: removes the temporary file. -/
def cleanup (env : Env) (fs : FS) : FS := fs.set (Path.temp env.tmpId) none

/-- Models `os.Rename` of the temporary file onto `dest` inside `CloseAtomicallyReplace`. -/
def rename (env : Env) (fs : FS) (dest : Bytes) (content : Bytes) : FS :=
  (fs.set (Path.file dest) (some content)).set (Path.temp env.tmpId) none

/-! ## `compress.go` -/

/-- The header fields of the gzip writer in `CompressFile`: the writer starts with the
OS byte "unknown"; `if named` sets the name and the modification time. -/
def compressHeader (env : Env) (filename : Bytes) (named : Bool) : Header :=
  let zw : Header := { OS := gzipOSUnknown }
  if named then { zw with Name := filepathBase filename, ModTime := env.modTime } else zw

/-- Models `CompressFile`, from the creation of `outputBuffer` to its final `Flush`: the
bytes in the temporary file, or the error returned. `input` is the content of the
opened source. The gzip writer emits its header at the first `Write`, which `io.Copy`
issues when the input is not empty, and otherwise at `Flush`. -/
def compressBody (cx : Codec) (env : Env) (input filename : Bytes) (level : Int)
    (named : Bool) : Except Err Bytes :=
  let outputBuffer : Writer := ⟨[], env.room⟩
  -- zw, err = gzip.NewWriterLevel(outputBuffer, level)
  if env.fails Step.newWriter then
    .error (Err.wrap "error creating gzip writer" (Err.io Step.newWriter))
  else if !cx.levelOk level then
    .error (Err.wrap "error creating gzip writer" Err.badLevel)
  else
    let zw : Header := compressHeader env filename named
    -- _, err = io.Copy(zw, bufio.NewReader(inputFile))
    if env.fails Step.copy then .error (Err.wrap "error writing data" (Err.io Step.copy))
    else
      match (if input ≠ [] then gzipWriterHeader outputBuffer level zw
             else (outputBuffer, none)) with
      | (_, some e) => .error (Err.wrap "error writing data" e)
      | (w1, none) =>
        if env.fails Step.closeInput then
          .error (Err.wrap "error closing input file" (Err.io Step.closeInput))
        -- zw.Flush()
        else if env.fails Step.flush then
          .error (Err.wrap "error flushing data" (Err.io Step.flush))
        else
          match (if input = [] then gzipWriterHeader w1 level zw else (w1, none)) with
          | (_, some e) => .error (Err.wrap "error flushing data" e)
          | (w2, none) =>
            -- zw.Close(): the DEFLATE stream, then CRC32 and size
            if env.fails Step.closeWriter then
              .error (Err.wrap "error closing output writer" (Err.io Step.closeWriter))
            else
              match w2.write (cx.deflate level input) with
              | (_, _, some e) => .error (Err.wrap "error closing output writer" e)
              | (w3, _, none) =>
                match w3.write (putUint32 (crc32 input)
                        ++ putUint32 (input.length % 4294967296)) with
                | (_, _, some e) => .error (Err.wrap "error closing output writer" e)
                | (w4, _, none) =>
                  -- outputBuffer.Flush()
                  if env.fails Step.flushBuffer then
                    .error (Err.wrap "error flushing output buffer" (Err.io Step.flushBuffer))
                  else .ok w4.out

/-- The function `CompressFile`. -/
def CompressFile (cx : Codec) (env : Env) (fs : FS) (filename suffix : Bytes) (level : Int)
    (keep force named _verbose : Bool) : Outcome :=
  -- inputInfo, err = os.Stat(filename)
  match osStat env fs Step.statInput filename with
  | some e => ⟨some (Err.wrap "error stating input file" e), fs, []⟩
  | none =>
    -- inputFile, err = os.Open(filename)
    if env.fails Step.openInput then
      ⟨some (Err.wrap "error opening input file" (Err.io Step.openInput)), fs, []⟩
    else
      let outputFilename := filename ++ suffix
      if !force && (fs (Path.file outputFilename)).isSome then ⟨some Err.outputExists, fs, []⟩
      else
        -- outputFile, err = renameio.TempFile(...); defer outputFile.Cleanup()
        match tempFile env fs with
        | .error e => ⟨some (Err.wrap "error creating temporary output file" e), fs, []⟩
        | .ok fs1 =>
          match compressBody cx env ((fs (Path.file filename)).getD []) filename level named with
          | .error e =>
            ⟨some e, cleanup env fs1, [Event.tempCreated env.tmpId, Event.cleaned env.tmpId]⟩
          | .ok content =>
            let fs2 := fs1.set (Path.temp env.tmpId) (some content)
            -- outputFile.CloseAtomicallyReplace()
            if env.fails Step.closeReplace then
              ⟨some (Err.wrap "error atomically closing output file" (Err.io Step.closeReplace)),
                cleanup env fs2, [Event.tempCreated env.tmpId, Event.cleaned env.tmpId]⟩
            else
              let fs3 := rename env fs2 outputFilename content
              let promoted := Event.promoted env.tmpId outputFilename content
              -- outputInfo, err = os.Stat(outputFilename)
              match osStat env fs3 Step.statOutput outputFilename with
              | some e =>
                ⟨some (Err.wrap "error stating output file" e), fs3,
                  [Event.tempCreated env.tmpId, promoted]⟩
              | none =>
                if !keep then
                  -- os.Remove(filename)
                  if env.fails Step.removeInput then
                    ⟨some (Err.wrap "error removing input file" (Err.io Step.removeInput)), fs3,
                      [Event.tempCreated env.tmpId, promoted]⟩
                  else
                    ⟨none, fs3.set (Path.file filename) none,
                      [Event.tempCreated env.tmpId, promoted, Event.removed filename]⟩
                else ⟨none, fs3, [Event.tempCreated env.tmpId, promoted]⟩

/-! ## `xflate.go`: the chunked encoder -/

/-- The two sinks of `io.MultiWriter(xw, crc)` and the byte count of `io.Copy`: the
plaintext handed to the XFLATE writer, the CRC register, the bytes written. -/
structure Sinks where
  plain : Bytes
  crc : Nat
  written : Nat
  deriving DecidableEq, Repr

/-- One `mw.Write(p)`: `p` goes to the compressor, then to the hasher, and is counted. -/
def mwWrite (s : Sinks) (p : Bytes) : Sinks :=
  ⟨s.plain ++ p, crcUpdate s.crc p, s.written + p.length⟩

/-- The loop of `io.Copy`: the source is read in pieces of the given sizes (whatever is left
after the last size is read at once), each piece is written to `mw`. -/
def ioCopy : List Nat → Bytes → Sinks → Sinks
  | _, [], s => s
  | [], data, s => mwWrite s data
  | k :: ks, data, s => ioCopy ks (data.drop k) (mwWrite s (data.take k))

/-- The header `XflateCompressFile` builds: a fixed comment, the OS byte "unknown", and
under `if named` the name and the modification time of the source. -/
def xflateHeader (env : Env) (filename : Bytes) (named : Bool) : Header :=
  let header : Header := { Comment := ascii "Encoded using XFLATE", OS := gzipOSUnknown }
  if named then { header with Name := filepathBase filename, ModTime := env.modTime }
  else header

/-- Models `XflateCompressFile`, from the creation of `outputBuffer` to its final `Flush`: the
bytes in the temporary file, or the error returned. `input` is the content of the
opened source. -/
def xflateBody (cx : Codec) (env : Env) (input filename : Bytes) (level : Int)
    (named : Bool) : Except Err Bytes :=
  let outputBuffer : Writer := ⟨[], env.room⟩
  -- Write Gzip header.
  let header : Header := xflateHeader env filename named
  match writeGzipHeader outputBuffer header with
  | (_, _, some e) => .error (Err.wrap "error writing header" e)
  | (w1, _, none) =>
    -- xw, err = xflate.NewWriter(outputBuffer, ...)
    if env.fails Step.newWriter then
      .error (Err.wrap "error creating xflate writer" (Err.io Step.newWriter))
    else if !cx.levelOk level then
      .error (Err.wrap "error creating xflate writer" Err.badLevel)
    -- written, err = io.Copy(mw, bufio.NewReader(inputFile))
    else if env.fails Step.copy then .error (Err.wrap "error writing data" (Err.io Step.copy))
    else
      let sinks := ioCopy env.reads input ⟨[], crcInit, 0⟩
      if env.fails Step.closeInput then
        .error (Err.wrap "error closing input file" (Err.io Step.closeInput))
      else if env.fails Step.flush then
        .error (Err.wrap "error flushing data" (Err.io Step.flush))
      else if env.fails Step.closeWriter then
        .error (Err.wrap "error closing output writer" (Err.io Step.closeWriter))
      else
        match w1.write (cx.xflate level sinks.plain) with
        | (_, _, some e) => .error (Err.wrap "error closing output writer" e)
        | (w2, _, none) =>
          -- Write Gzip footer.
          match w2.write (putUint32 (uint32 (crcSum32 sinks.crc))) with
          | (_, _, some e) => .error (Err.wrap "error writing footer: checksum" e)
          | (w3, _, none) =>
            match w3.write (putUint32 (uint32 sinks.written)) with
            | (_, _, some e) => .error (Err.wrap "error writing footer: size" e)
            | (w4, _, none) =>
              if env.fails Step.flushBuffer then
                .error (Err.wrap "error flushing output buffer" (Err.io Step.flushBuffer))
              else .ok w4.out

/-- The function `XflateCompressFile`. -/
def XflateCompressFile (cx : Codec) (env : Env) (fs : FS) (filename suffix : Bytes)
    (level : Int) (keep force named _verbose : Bool) : Outcome :=
  -- inputInfo, err = os.Stat(filename)
  match osStat env fs Step.statInput filename with
  | some e => ⟨some (Err.wrap "error stating input file" e), fs, []⟩
  | none =>
    -- inputFile, err = os.Open(filename)
    if env.fails Step.openInput then
      ⟨some (Err.wrap "error opening input file" (Err.io Step.openInput)), fs, []⟩
    else
      let outputFilename := filename ++ suffix
      if !force && (fs (Path.file outputFilename)).isSome then ⟨some Err.outputExists, fs, []⟩
      else
        -- outputFile, err = renameio.TempFile(...); defer outputFile.Cleanup()
        match tempFile env fs with
        | .error e => ⟨some (Err.wrap "error creating temporary output file" e), fs, []⟩
        | .ok fs1 =>
          match xflateBody cx env ((fs (Path.file filename)).getD []) filename level named with
          | .error e =>
            ⟨some e, cleanup env fs1, [Event.tempCreated env.tmpId, Event.cleaned env.tmpId]⟩
          | .ok content =>
            let fs2 := fs1.set (Path.temp env.tmpId) (some content)
            -- outputFile.CloseAtomicallyReplace()
            if env.fails Step.closeReplace then
              ⟨some (Err.wrap "error atomically closing output file" (Err.io Step.closeReplace)),
                cleanup env fs2, [Event.tempCreated env.tmpId, Event.cleaned env.tmpId]⟩
            else
              let fs3 := rename env fs2 outputFilename content
              let promoted := Event.promoted env.tmpId outputFilename content
              -- outputInfo, err = os.Stat(outputFilename)
              match osStat env fs3 Step.statOutput outputFilename with
              | some e =>
                ⟨some (Err.wrap "error stating output file" e), fs3,
                  [Event.tempCreated env.tmpId, promoted]⟩
              | none =>
                if !keep then
                  -- os.Remove(filename)
                  if env.fails Step.removeInput then
                    ⟨some (Err.wrap "error removing input file" (Err.io Step.removeInput)), fs3,
                      [Event.tempCreated env.tmpId, promoted]⟩
                  else
                    ⟨none, fs3.set (Path.file filename) none,
                      [Event.tempCreated env.tmpId, promoted, Event.removed filename]⟩
                else ⟨none, fs3, [Event.tempCreated env.tmpId, promoted]⟩

/-! ## `decompress.go` -/

/-- Models `DecompressFile`, from the creation of `outputBuffer` to its final `Flush`: the
bytes in the temporary file, or the error returned. -/
def decompressBody (cx : Codec) (env : Env) (input : Bytes) : Except Err Bytes :=
  let outputBuffer : Writer := ⟨[], env.room⟩
  -- zr, err = gzip.NewReader(bufio.NewReader(inputFile)): reads the first header
  if env.fails Step.newReader then .error (Err.io Step.newReader)
  else
    match readHeader input with
    | .error e => .error e
    | .ok _ =>
      -- _, err = io.Copy(outputBuffer, zr)
      if env.fails Step.copy then .error (Err.io Step.copy)
      else
        match gunzip cx (input.length + 1) input with
        | .error e => .error e
        | .ok plain =>
          match outputBuffer.write plain with
          | (_, _, some e) => .error e
          | (w1, _, none) =>
            if env.fails Step.closeReader then .error (Err.io Step.closeReader)
            else if env.fails Step.closeInput then .error (Err.io Step.closeInput)
            else if env.fails Step.flushBuffer then
              .error (Err.wrap "error flushing output buffer" (Err.io Step.flushBuffer))
            else .ok w1.out

/-- The function `DecompressFile`. -/
def DecompressFile (cx : Codec) (env : Env) (fs : FS) (filename suffix : Bytes)
    (keep force _verbose : Bool) : Outcome :=
  -- inputInfo, err = os.Stat(filename)
  match osStat env fs Step.statInput filename with
  | some e => ⟨some e, fs, []⟩
  | none =>
    -- inputFile, err = os.Open(filename)
    if env.fails Step.openInput then ⟨some (Err.io Step.openInput), fs, []⟩
    else
      let outputFilename := trimSuffix filename suffix
      if !force && (fs (Path.file outputFilename)).isSome then ⟨some Err.outputExists, fs, []⟩
      else
        -- outputFile, err = renameio.TempFile(...); defer outputFile.Cleanup()
        match tempFile env fs with
        | .error e => ⟨some e, fs, []⟩
        | .ok fs1 =>
          match decompressBody cx env ((fs (Path.file filename)).getD []) with
          | .error e =>
            ⟨some e, cleanup env fs1, [Event.tempCreated env.tmpId, Event.cleaned env.tmpId]⟩
          | .ok content =>
            let fs2 := fs1.set (Path.temp env.tmpId) (some content)
            -- outputFile.CloseAtomicallyReplace()
            if env.fails Step.closeReplace then
              ⟨some (Err.io Step.closeReplace), cleanup env fs2,
                [Event.tempCreated env.tmpId, Event.cleaned env.tmpId]⟩
            else
              let fs3 := rename env fs2 outputFilename content
              let promoted := Event.promoted env.tmpId outputFilename content
              -- outputInfo, err = os.Stat(outputFilename)
              match osStat env fs3 Step.statOutput outputFilename with
              | some e => ⟨some e, fs3, [Event.tempCreated env.tmpId, promoted]⟩
              | none =>
                if !keep then
                  -- os.Remove(filename)
                  if env.fails Step.removeInput then
                    ⟨some (Err.io Step.removeInput), fs3, [Event.tempCreated env.tmpId, promoted]⟩
                  else
                    ⟨none, fs3.set (Path.file filename) none,
                      [Event.tempCreated env.tmpId, promoted, Event.removed filename]⟩
                else ⟨none, fs3, [Event.tempCreated env.tmpId, promoted]⟩

/-- An environment in which no external call fails and output space is unbounded. -/
def Env.quiet (tmpId : Nat) (modTime : Int) (reads : List Nat) : Env :=
  ⟨fun _ => false, tmpId, none, modTime, reads⟩

/-- A file system holding exactly one file. -/
def FS.single (name content : Bytes) : FS :=
  fun q => if q = Path.file name then some content else none

/-- The optional fields of a header in their serialized form: the length-prefixed extra
field, the NUL-terminated name, the NUL-terminated comment, each only when present. -/
def optionalFields (header : Header) : Bytes :=
  (match header.Extra with
    | some x => [x.length % 256, x.length / 256] ++ x
    | none => [])
  ++ (if header.Name = [] then [] else runes header.Name ++ [0])
  ++ (if header.Comment = [] then [] else runes header.Comment ++ [0])

/-- The string holds a NUL or a code point above `0xFF`: the condition on which
`writeString` returns its encoding error. -/
def NonLatin1 (s : Bytes) : Prop := ∃ v ∈ runes s, v = 0 ∨ 0xff < v

instance (s : Bytes) : Decidable (NonLatin1 s) := by
  unfold NonLatin1
  infer_instance

/-! ## Concrete inputs -/

/-- An environment in which exactly the call `s` fails. -/
def Env.failing (s : Step) : Env :=
  ⟨fun t => decide (t = s), 7, none, 1700000000, [4]⟩

/-- A directory with the file `a.txt`, holding `hello world`. -/
def demoFS : FS := FS.single (ascii "a.txt") (ascii "hello world")

/-- The same directory with an older `a.txt.gz` next to `a.txt`. -/
def demoFSOld : FS := demoFS.set (Path.file (ascii "a.txt.gz")) (some [9, 9])

/-- A gzip stream of `hello world`, for the stand-in coder. -/
def demoGzip : Bytes :=
  [0x1f, 0x8b, 8, 0, 0, 0, 0, 0, 0, 255] ++ storedDeflate (ascii "hello world")
    ++ putUint32 (crc32 (ascii "hello world")) ++ putUint32 11

/-- The run of `XflateCompressFile` on `a.txt` at level 5, read in pieces of 4 bytes. -/
def demoXflate (named : Bool) : Outcome :=
  XflateCompressFile storedCodec (Env.quiet 7 1700000000 [4, 4]) demoFS (ascii "a.txt")
    (ascii ".gz") 5 false false named false

/-- The file `a.txt.gz` that run leaves when the name is embedded. -/
def demoXflateFile : Bytes := ((demoXflate true).fs (Path.file (ascii "a.txt.gz"))).getD []

/-- The file `a.txt.gz` that run leaves when no name is embedded. -/
def demoUnnamedFile : Bytes := ((demoXflate false).fs (Path.file (ascii "a.txt.gz"))).getD []

/-- The orchestration common to `CompressFile`, `XflateCompressFile` and `DecompressFile`,
used to reason about the three at once: `body` is the result of the steps between
`defer outputFile.Cleanup()` and the final `Flush`, `wrap` is `errors.Wrap` for the two
compressors and the identity for `DecompressFile`. -/
def transcode (wrap : String → Err → Err) (env : Env) (fs : FS)
    (filename outputFilename : Bytes) (keep force : Bool) (body : Except Err Bytes) :
    Outcome :=
  match osStat env fs Step.statInput filename with
  | some e => ⟨some (wrap "error stating input file" e), fs, []⟩
  | none =>
    if env.fails Step.openInput then
      ⟨some (wrap "error opening input file" (Err.io Step.openInput)), fs, []⟩
    else
      if !force && (fs (Path.file outputFilename)).isSome then ⟨some Err.outputExists, fs, []⟩
      else
        match tempFile env fs with
        | .error e => ⟨some (wrap "error creating temporary output file" e), fs, []⟩
        | .ok fs1 =>
          match body with
          | .error e =>
            ⟨some e, cleanup env fs1, [Event.tempCreated env.tmpId, Event.cleaned env.tmpId]⟩
          | .ok content =>
            let fs2 := fs1.set (Path.temp env.tmpId) (some content)
            if env.fails Step.closeReplace then
              ⟨some (wrap "error atomically closing output file" (Err.io Step.closeReplace)),
                cleanup env fs2, [Event.tempCreated env.tmpId, Event.cleaned env.tmpId]⟩
            else
              let fs3 := rename env fs2 outputFilename content
              let promoted := Event.promoted env.tmpId outputFilename content
              match osStat env fs3 Step.statOutput outputFilename with
              | some e =>
                ⟨some (wrap "error stating output file" e), fs3,
                  [Event.tempCreated env.tmpId, promoted]⟩
              | none =>
                if !keep then
                  if env.fails Step.removeInput then
                    ⟨some (wrap "error removing input file" (Err.io Step.removeInput)), fs3,
                      [Event.tempCreated env.tmpId, promoted]⟩
                  else
                    ⟨none, fs3.set (Path.file filename) none,
                      [Event.tempCreated env.tmpId, promoted, Event.removed filename]⟩
                else ⟨none, fs3, [Event.tempCreated env.tmpId, promoted]⟩

/-- The external calls of `CompressFile` and `XflateCompressFile` between the creation of
the temporary file and its promotion. -/
def compressWindow : List Step :=
  [Step.newWriter, Step.copy, Step.closeInput, Step.flush, Step.closeWriter,
    Step.flushBuffer, Step.closeReplace]

/-- The external calls of `DecompressFile` between the creation of the temporary file and
its promotion. -/
def decompressWindow : List Step :=
  [Step.newReader, Step.copy, Step.closeReader, Step.closeInput, Step.flushBuffer,
    Step.closeReplace]

/-! ## Lemmas: bit operations and UTF-8 decoding -/

theorem left_le_or (a b : Nat) : a ≤ a ||| b :=
  Nat.le_of_testBit (by intro i h; simp [Nat.testBit_or, h])

theorem right_le_or (a b : Nat) : b ≤ a ||| b :=
  Nat.le_of_testBit (by intro i h; simp [Nat.testBit_or, h])

theorem and_0x1F (x : Nat) : x &&& 0x1F = x % 32 := Nat.and_pow_two_sub_one_eq_mod x 5
theorem and_0x0F (x : Nat) : x &&& 0x0F = x % 16 := Nat.and_pow_two_sub_one_eq_mod x 4
theorem and_0x07 (x : Nat) : x &&& 0x07 = x % 8 := Nat.and_pow_two_sub_one_eq_mod x 3
theorem and_0x3F (x : Nat) : x &&& 0x3F = x % 64 := Nat.and_pow_two_sub_one_eq_mod x 6

/-- A string that starts with a non-ASCII byte starts with a non-ASCII rune. -/
theorem decodeRune_ge (b : Nat) (t : Bytes) (hb : 0x80 ≤ b) :
    0x80 ≤ (decodeRune (b :: t)).1 := by
  simp only [decodeRune]
  have hE : (0x80 : Nat) ≤ runeError := by decide
  repeat' split
  all_goals first
    | exact hE
    | omega
    | (refine le_trans ?_ (left_le_or _ _)
       rw [and_0x1F, Nat.shiftLeft_eq]
       omega)
    | (refine le_trans ?_ (left_le_or _ _)
       refine le_trans ?_ (right_le_or _ _)
       rw [and_0x3F, Nat.shiftLeft_eq]
       omega)
    | (refine le_trans ?_ (left_le_or _ _)
       refine le_trans ?_ (left_le_or _ _)
       rw [and_0x0F, Nat.shiftLeft_eq]
       omega)
    | (refine le_trans ?_ (left_le_or _ _)
       refine le_trans ?_ (left_le_or _ _)
       refine le_trans ?_ (right_le_or _ _)
       rw [and_0x3F, Nat.shiftLeft_eq]
       omega)
    | (refine le_trans ?_ (left_le_or _ _)
       refine le_trans ?_ (left_le_or _ _)
       refine le_trans ?_ (left_le_or _ _)
       rw [and_0x07, Nat.shiftLeft_eq]
       omega)

/-- An ASCII byte is its own rune and has width one. -/
theorem decodeRune_ascii (b : Nat) (t : Bytes) (hb : b < 0x80) :
    decodeRune (b :: t) = (b, 1) := by
  simp [decodeRune, hb]

/-- A string whose runes are all ASCII consists of exactly those runes as bytes. -/
theorem runes_ascii (s : Bytes) (h : ∀ v ∈ runes s, v ≤ 0x7f) : runes s = s := by
  induction s with
  | nil => rfl
  | cons b t ih =>
    have hb : b < 0x80 := by
      by_contra hge
      have h1 := decodeRune_ge b t (by omega)
      have h2 := h (decodeRune (b :: t)).1 (by simp [runes, runesFrom])
      omega
    have hd := decodeRune_ascii b t hb
    have hr : runes (b :: t) = b :: runes t := by
      simp [runes, runesFrom, hd]
    rw [hr] at h ⊢
    rw [ih (fun v hv => h v (List.mem_cons_of_mem _ hv))]

/-! ## Lemmas: writers, strings and header fields -/

theorem write_unbounded (o p : Bytes) :
    Writer.write ⟨o, none⟩ p = (⟨o ++ p, none⟩, p.length, none) := rfl

/-- The check of `writeString` passes on Latin-1 text without NUL. -/
theorem latin1_check (s : Bytes) (h : ∀ v ∈ runes s, 1 ≤ v ∧ v ≤ 255) :
    (runes s).any (fun v => v == 0 || decide (v > 0xff)) = false := by
  rw [List.any_eq_false]
  intro v hv
  have := h v hv
  simp only [gt_iff_lt, Bool.or_eq_true, beq_iff_eq, decide_eq_true_eq, not_or, not_lt]
  omega

/-- The bytes made by the conversion path are the runes themselves. -/
theorem latin1_bytes (s : Bytes) (h : ∀ v ∈ runes s, 1 ≤ v ∧ v ≤ 255) :
    (runes s).map (· % 256) = runes s := by
  conv_rhs => rw [← List.map_id (runes s)]
  apply List.map_congr_left
  intro v hv
  have := h v hv
  simp only [id_eq]
  omega

/-- On an unbounded writer `writeString` appends the runes of a Latin-1 string and a NUL. -/
theorem writeString_ok (o s : Bytes) (h : ∀ v ∈ runes s, 1 ≤ v ∧ v ≤ 255) :
    writeString ⟨o, none⟩ s = (⟨o ++ (runes s ++ [0]), none⟩, none) := by
  simp only [writeString, latin1_check s h, Bool.false_eq_true, if_false]
  by_cases hc : (runes s).any (fun v => decide (v > 0x7f)) = true
  · simp only [hc, if_true, write_unbounded, latin1_bytes s h, List.append_assoc]
  · have hasc : ∀ v ∈ runes s, v ≤ 0x7f := by
      intro v hv
      by_contra hgt
      exact hc (List.any_eq_true.mpr ⟨v, hv, by simpa using hgt⟩)
    simp only [hc, Bool.false_eq_true, if_false, write_unbounded, List.append_assoc]
    rw [runes_ascii s hasc]

/-- A string with a NUL or a code point above `0xFF` is rejected before any write. -/
theorem writeString_bad (w : Writer) (s : Bytes) (h : ∃ v ∈ runes s, v = 0 ∨ 0xff < v) :
    writeString w s = (w, some Err.nonLatin1) := by
  obtain ⟨v, hv, hbad⟩ := h
  have hany : (runes s).any (fun v => v == 0 || decide (v > 0xff)) = true :=
    List.any_eq_true.mpr ⟨v, hv, by simpa using hbad⟩
  simp only [writeString, hany, if_true]

/-- On an unbounded writer `writeBytes` appends the 2-byte length and the bytes. -/
theorem writeBytes_ok (o b : Bytes) (h : b.length ≤ 65535) :
    writeBytes ⟨o, none⟩ b = (⟨o ++ ([b.length % 256, b.length / 256] ++ b), none⟩, none) := by
  have h1 : ¬ b.length > 0xffff := by omega
  have h2 : (b.length % 65536) >>> 8 % 256 = b.length / 256 := by
    rw [Nat.shiftRight_eq_div_pow]; omega
  have h3 : b.length % 65536 % 256 = b.length % 256 := by omega
  simp only [writeBytes, h1, if_false, write_unbounded, putUint16, uint16, h2, h3,
    List.append_assoc, List.cons_append, List.nil_append]

theorem testBit_byte_high (c i : Nat) (hc : c < 256) (hi : 8 ≤ i) : c.testBit i = false :=
  Nat.testBit_lt_two_pow (lt_of_lt_of_le hc
    (le_trans (by norm_num) (Nat.pow_le_pow_right (by norm_num : 1 ≤ 2) hi)))

/-- The flag byte mirrors which optional fields are present. -/
theorem headerFlags_testBit (header : Header) (i : Nat) :
    (headerFlags header).testBit i = true ↔
      (i = 2 ∧ header.Extra ≠ none) ∨ (i = 3 ∧ header.Name ≠ [])
        ∨ (i = 4 ∧ header.Comment ≠ []) := by
  by_cases he : header.Extra = none <;> by_cases hn : header.Name = []
    <;> by_cases hc : header.Comment = []
  all_goals
    simp only [headerFlags, he, hn, hc, ne_eq, not_true_eq_false, not_false_eq_true,
      if_true, if_false, and_true, and_false, or_false, false_or]
    rcases Nat.lt_or_ge i 8 with hi | hi
    · interval_cases i <;> decide
    · rw [testBit_byte_high _ i (by decide) hi]
      simp only [Bool.false_eq_true, false_iff]
      try omega

/-- A header whose fields are well formed: the extra field fits its 2-byte length, name
and comment are Latin-1 text without NUL. -/
theorem writeGzipHeader_ok (o : Bytes) (header : Header)
    (hx : ∀ x, header.Extra = some x → x.length ≤ 65535)
    (hn : ∀ v ∈ runes header.Name, 1 ≤ v ∧ v ≤ 255)
    (hc : ∀ v ∈ runes header.Comment, 1 ≤ v ∧ v ≤ 255) :
    writeGzipHeader ⟨o, none⟩ header
      = (⟨o ++ (headerPrefix header ++ optionalFields header), none⟩, 10, none) := by
  have hlen : (headerPrefix header).length = 10 := by simp [headerPrefix, putUint32]
  simp only [writeGzipHeader, write_unbounded, hlen, optionalFields]
  cases hE : header.Extra with
  | none =>
    by_cases hN : header.Name = [] <;> by_cases hC : header.Comment = []
    all_goals
      simp only [hN, hC, ne_eq, not_true_eq_false, not_false_eq_true, if_true, if_false,
        writeString_ok _ _ hn, writeString_ok _ _ hc, List.append_assoc, List.append_nil,
        List.nil_append]
  | some x =>
    have hx' := hx x hE
    by_cases hN : header.Name = [] <;> by_cases hC : header.Comment = []
    all_goals
      simp only [hN, hC, ne_eq, not_true_eq_false, not_false_eq_true, if_true, if_false,
        writeBytes_ok _ _ hx', writeString_ok _ _ hn, writeString_ok _ _ hc,
        List.append_assoc, List.append_nil, List.nil_append, List.cons_append]

theorem uint32_cast (x : Int) : ((uint32 x : Nat) : Int) = x % 2 ^ 32 := by
  unfold uint32
  rw [Int.toNat_of_nonneg (Int.emod_nonneg _ (by norm_num))]
  norm_num

theorem putUint32_div (m : Nat) :
    putUint32 m = [m % 256, m / 256 % 256, m / 65536 % 256, m / 16777216 % 256] := by
  simp only [putUint32, Nat.shiftRight_eq_div_pow]

/-! ## Lemmas: what a successful write has written -/

/-- A write that succeeds has appended all of `p`. -/
theorem write_success {w w1 : Writer} {p : Bytes} {n : Nat}
    (h : w.write p = (w1, n, none)) : w1.out = w.out ++ p := by
  unfold Writer.write at h
  cases hr : w.room with
  | none =>
    simp only [hr, Prod.mk.injEq, and_true] at h
    rw [← h.1]
  | some r =>
    simp only [hr] at h
    split_ifs at h
    · simp only [Prod.mk.injEq, and_true] at h
      rw [← h.1]
    · simp at h

/-- A write either succeeds or fails, and a failed write returns an error. -/
theorem write_cases (w : Writer) (p : Bytes) :
    (∃ w1 n, w.write p = (w1, n, none)) ∨ (∃ w1 n e, w.write p = (w1, n, some e)) := by
  unfold Writer.write
  cases w.room with
  | none => exact Or.inl ⟨_, _, rfl⟩
  | some r =>
    simp only
    split_ifs
    · exact Or.inl ⟨_, _, rfl⟩
    · exact Or.inr ⟨_, _, _, rfl⟩

theorem latin1_of_check {s : Bytes}
    (h : ¬ (runes s).any (fun v => v == 0 || decide (v > 0xff)) = true) :
    ∀ v ∈ runes s, 1 ≤ v ∧ v ≤ 255 := by
  intro v hv
  by_contra hne
  apply h
  refine List.any_eq_true.mpr ⟨v, hv, ?_⟩
  simp only [gt_iff_lt, Bool.or_eq_true, beq_iff_eq, decide_eq_true_eq]
  omega

/-- When `writeString` succeeds the string was Latin-1 without NUL, and its runes and a NUL
were appended. -/
theorem writeString_success {w w1 : Writer} {s : Bytes}
    (h : writeString w s = (w1, none)) :
    (∀ v ∈ runes s, 1 ≤ v ∧ v ≤ 255) ∧ w1.out = w.out ++ (runes s ++ [0]) := by
  unfold writeString at h
  by_cases hbad : (runes s).any (fun v => v == 0 || decide (v > 0xff)) = true
  · simp [hbad] at h
  · have hl := latin1_of_check hbad
    refine ⟨hl, ?_⟩
    simp only [hbad, Bool.false_eq_true, if_false] at h
    by_cases hc : (runes s).any (fun v => decide (v > 0x7f)) = true
    · simp only [hc, if_true, latin1_bytes s hl] at h
      rcases write_cases w (runes s) with ⟨wa, n, ha⟩ | ⟨wa, n, e, ha⟩
      · simp only [ha] at h
        rcases write_cases wa [0] with ⟨wb, m, hb⟩ | ⟨wb, m, e, hb⟩
        · simp only [hb, Prod.mk.injEq, and_true] at h
          rw [← h, write_success hb, write_success ha, List.append_assoc]
        · simp [hb] at h
      · simp [ha] at h
    · have hasc : ∀ v ∈ runes s, v ≤ 0x7f := by
        intro v hv
        by_contra hgt
        exact hc (List.any_eq_true.mpr ⟨v, hv, by simpa using hgt⟩)
      simp only [hc, Bool.false_eq_true, if_false] at h
      rcases write_cases w s with ⟨wa, n, ha⟩ | ⟨wa, n, e, ha⟩
      · simp only [ha] at h
        rcases write_cases wa [0] with ⟨wb, m, hb⟩ | ⟨wb, m, e, hb⟩
        · simp only [hb, Prod.mk.injEq, and_true] at h
          rw [← h, write_success hb, write_success ha, List.append_assoc, runes_ascii s hasc]
        · simp [hb] at h
      · simp [ha] at h

/-- When `writeBytes` succeeds the slice fits a 2-byte length, and that length and the
bytes were appended. -/
theorem writeBytes_success {w w1 : Writer} {b : Bytes}
    (h : writeBytes w b = (w1, none)) :
    b.length ≤ 65535 ∧ w1.out = w.out ++ ([b.length % 256, b.length / 256] ++ b) := by
  unfold writeBytes at h
  by_cases hbig : b.length > 0xffff
  · simp [hbig] at h
  · refine ⟨by omega, ?_⟩
    have h2 : (b.length % 65536) >>> 8 % 256 = b.length / 256 := by
      rw [Nat.shiftRight_eq_div_pow]; omega
    have h3 : b.length % 65536 % 256 = b.length % 256 := by omega
    simp only [hbig, if_false] at h
    rcases write_cases w (putUint16 (uint16 b.length)) with ⟨wa, n, ha⟩ | ⟨wa, n, e, ha⟩
    · simp only [ha] at h
      rcases write_cases wa b with ⟨wb, m, hb⟩ | ⟨wb, m, e, hb⟩
      · simp only [hb, Prod.mk.injEq, and_true] at h
        rw [← h, write_success hb, write_success ha]
        simp only [putUint16, uint16, h2, h3, List.append_assoc, List.cons_append,
          List.nil_append]
      · simp [hb] at h
    · simp [ha] at h

/-- When `writeGzipHeader` succeeds every field was well formed and the writer received
the 10-byte prefix followed by the optional fields. -/
theorem writeGzipHeader_success {w w1 : Writer} {n : Nat} {header : Header}
    (h : writeGzipHeader w header = (w1, n, none)) :
    (∀ x, header.Extra = some x → x.length ≤ 65535)
      ∧ (∀ v ∈ runes header.Name, 1 ≤ v ∧ v ≤ 255)
      ∧ (∀ v ∈ runes header.Comment, 1 ≤ v ∧ v ≤ 255)
      ∧ w1.out = w.out ++ (headerPrefix header ++ optionalFields header) := by
  unfold writeGzipHeader at h
  rcases write_cases w (headerPrefix header) with ⟨wa, na, ha⟩ | ⟨wa, na, e, ha⟩
  swap
  · simp [ha] at h
  simp only [ha] at h
  have hoa := write_success ha
  -- extra field
  have hX : ∃ wb, (match header.Extra with
        | some x => writeBytes wa x
        | none => (wa, none)) = (wb, none)
      ∧ (∀ x, header.Extra = some x → x.length ≤ 65535)
      ∧ wb.out = wa.out ++ (match header.Extra with
        | some x => [x.length % 256, x.length / 256] ++ x
        | none => []) := by
    cases hE : header.Extra with
    | none =>
      refine ⟨wa, rfl, ?_, ?_⟩
      · intro x hx; cases hx
      · simp
    | some x =>
      simp only [hE] at h
      cases hwb : writeBytes wa x with
      | mk wb eb =>
        cases eb with
        | some e => simp [hwb] at h
        | none =>
          have := writeBytes_success hwb
          refine ⟨wb, hwb, ?_, this.2⟩
          intro y hy; cases hy; exact this.1
  obtain ⟨wb, hXe, hXl, hob⟩ := hX
  simp only [hXe] at h
  -- name
  have hN : ∃ wc, (if header.Name ≠ [] then writeString wb header.Name else (wb, none))
        = (wc, none)
      ∧ (∀ v ∈ runes header.Name, 1 ≤ v ∧ v ≤ 255)
      ∧ wc.out = wb.out ++ (if header.Name = [] then [] else runes header.Name ++ [0]) := by
    by_cases hn : header.Name = []
    · refine ⟨wb, by simp [hn], by simp [hn, runes, runesFrom], by simp [hn]⟩
    · simp only [ne_eq, hn, not_false_eq_true, if_true] at h
      cases hws : writeString wb header.Name with
      | mk wc ec =>
        cases ec with
        | some e => simp [hws] at h
        | none =>
          have := writeString_success hws
          exact ⟨wc, by simp [hn], this.1, by simp [hn, this.2]⟩
  obtain ⟨wc, hNe, hNl, hoc⟩ := hN
  simp only [hNe] at h
  -- comment
  have hC : ∃ wd, (if header.Comment ≠ [] then writeString wc header.Comment else (wc, none))
        = (wd, none)
      ∧ (∀ v ∈ runes header.Comment, 1 ≤ v ∧ v ≤ 255)
      ∧ wd.out = wc.out
          ++ (if header.Comment = [] then [] else runes header.Comment ++ [0]) := by
    by_cases hc : header.Comment = []
    · refine ⟨wc, by simp [hc], by simp [hc, runes, runesFrom], by simp [hc]⟩
    · simp only [ne_eq, hc, not_false_eq_true, if_true] at h
      cases hws : writeString wc header.Comment with
      | mk wd ed =>
        cases ed with
        | some e => simp [hws] at h
        | none =>
          have := writeString_success hws
          exact ⟨wd, by simp [hc], this.1, by simp [hc, this.2]⟩
  obtain ⟨wd, hCe, hCl, hod⟩ := hC
  simp only [hCe, Prod.mk.injEq, and_true] at h
  refine ⟨hXl, hNl, hCl, ?_⟩
  rw [← h.1, hod, hoc, hob, hoa]
  simp only [optionalFields, List.append_assoc]

/-- The fixed part of the header that `gzip.Writer` emits. -/
theorem gzipWriterHeader_success {w w1 : Writer} {level : Int} {header : Header}
    (h : gzipWriterHeader w level header = (w1, none)) :
    (∀ x, header.Extra = some x → x.length ≤ 65535)
      ∧ (∀ v ∈ runes header.Name, 1 ≤ v ∧ v ≤ 255)
      ∧ (∀ v ∈ runes header.Comment, 1 ≤ v ∧ v ≤ 255)
      ∧ w1.out = w.out ++ (gzipWriterPrefix level header ++ optionalFields header) := by
  unfold gzipWriterHeader at h
  rcases write_cases w (gzipWriterPrefix level header) with ⟨wa, na, ha⟩ | ⟨wa, na, e, ha⟩
  swap
  · simp [ha] at h
  simp only [ha] at h
  have hoa := write_success ha
  -- extra field
  have hX : ∃ wb, (match header.Extra with
        | some x => writeBytes wa x
        | none => (wa, none)) = (wb, none)
      ∧ (∀ x, header.Extra = some x → x.length ≤ 65535)
      ∧ wb.out = wa.out ++ (match header.Extra with
        | some x => [x.length % 256, x.length / 256] ++ x
        | none => []) := by
    cases hE : header.Extra with
    | none =>
      refine ⟨wa, rfl, ?_, ?_⟩
      · intro x hx; cases hx
      · simp
    | some x =>
      simp only [hE] at h
      cases hwb : writeBytes wa x with
      | mk wb eb =>
        cases eb with
        | some e => simp [hwb] at h
        | none =>
          have := writeBytes_success hwb
          refine ⟨wb, hwb, ?_, this.2⟩
          intro y hy; cases hy; exact this.1
  obtain ⟨wb, hXe, hXl, hob⟩ := hX
  simp only [hXe] at h
  -- name
  have hN : ∃ wc, (if header.Name ≠ [] then writeString wb header.Name else (wb, none))
        = (wc, none)
      ∧ (∀ v ∈ runes header.Name, 1 ≤ v ∧ v ≤ 255)
      ∧ wc.out = wb.out ++ (if header.Name = [] then [] else runes header.Name ++ [0]) := by
    by_cases hn : header.Name = []
    · refine ⟨wb, by simp [hn], by simp [hn, runes, runesFrom], by simp [hn]⟩
    · simp only [ne_eq, hn, not_false_eq_true, if_true] at h
      cases hws : writeString wb header.Name with
      | mk wc ec =>
        cases ec with
        | some e => simp [hws] at h
        | none =>
          have := writeString_success hws
          exact ⟨wc, by simp [hn], this.1, by simp [hn, this.2]⟩
  obtain ⟨wc, hNe, hNl, hoc⟩ := hN
  simp only [hNe] at h
  -- comment
  have hC : ∃ wd, (if header.Comment ≠ [] then writeString wc header.Comment else (wc, none))
        = (wd, none)
      ∧ (∀ v ∈ runes header.Comment, 1 ≤ v ∧ v ≤ 255)
      ∧ wd.out = wc.out
          ++ (if header.Comment = [] then [] else runes header.Comment ++ [0]) := by
    by_cases hc : header.Comment = []
    · refine ⟨wc, by simp [hc], by simp [hc, runes, runesFrom], by simp [hc]⟩
    · simp only [ne_eq, hc, not_false_eq_true, if_true] at h
      cases hws : writeString wc header.Comment with
      | mk wd ed =>
        cases ed with
        | some e => simp [hws] at h
        | none =>
          have := writeString_success hws
          exact ⟨wd, by simp [hc], this.1, by simp [hc, this.2]⟩
  obtain ⟨wd, hCe, hCl, hod⟩ := hC
  simp only [hCe, Prod.mk.injEq, and_true] at h
  refine ⟨hXl, hNl, hCl, ?_⟩
  rw [← h, hod, hoc, hob, hoa]
  simp only [optionalFields, List.append_assoc]

/-! ## Lemmas: the three file operations -/

theorem CompressFile_eq (cx : Codec) (env : Env) (fs : FS) (filename suffix : Bytes)
    (level : Int) (keep force named verbose : Bool) :
    CompressFile cx env fs filename suffix level keep force named verbose
      = transcode Err.wrap env fs filename (filename ++ suffix) keep force
          (compressBody cx env ((fs (Path.file filename)).getD []) filename level named) :=
  rfl

theorem XflateCompressFile_eq (cx : Codec) (env : Env) (fs : FS) (filename suffix : Bytes)
    (level : Int) (keep force named verbose : Bool) :
    XflateCompressFile cx env fs filename suffix level keep force named verbose
      = transcode Err.wrap env fs filename (filename ++ suffix) keep force
          (xflateBody cx env ((fs (Path.file filename)).getD []) filename level named) :=
  rfl

theorem DecompressFile_eq (cx : Codec) (env : Env) (fs : FS) (filename suffix : Bytes)
    (keep force verbose : Bool) :
    DecompressFile cx env fs filename suffix keep force verbose
      = transcode (fun _ e => e) env fs filename (trimSuffix filename suffix) keep force
          (decompressBody cx env ((fs (Path.file filename)).getD [])) :=
  rfl

@[simp] theorem FS.set_apply (fs : FS) (p q : Path) (c : Option Bytes) :
    (fs.set p c) q = if q = p then c else fs q := rfl

theorem cleanup_fresh (env : Env) (fs : FS) (c : Option Bytes)
    (h : fs (Path.temp env.tmpId) = none) :
    cleanup env (fs.set (Path.temp env.tmpId) c) = fs := by
  funext q
  by_cases hq : q = Path.temp env.tmpId
  · simp [cleanup, hq, h]
  · simp [cleanup, hq]

theorem cleanup_fresh2 (env : Env) (fs : FS) (c d : Option Bytes)
    (h : fs (Path.temp env.tmpId) = none) :
    cleanup env ((fs.set (Path.temp env.tmpId) c).set (Path.temp env.tmpId) d) = fs := by
  funext q
  by_cases hq : q = Path.temp env.tmpId
  · simp [cleanup, hq, h]
  · simp [cleanup, hq]

/-- The file system after promotion. -/
theorem rename_staged (env : Env) (fs : FS) (dest c : Bytes) (b : Option Bytes)
    (h : fs (Path.temp env.tmpId) = none) :
    rename env ((fs.set (Path.temp env.tmpId) b).set (Path.temp env.tmpId) (some c)) dest c
      = fs.set (Path.file dest) (some c) := by
  funext q
  by_cases hq : q = Path.temp env.tmpId
  · simp [rename, hq, h]
  · by_cases hd : q = Path.file dest
    · simp [rename, hq, hd]
    · simp [rename, hq, hd]

theorem osStat_none_iff (env : Env) (fs : FS) (s : Step) (name : Bytes) :
    osStat env fs s name = none
      ↔ env.fails s = false ∧ (fs (Path.file name)).isSome = true := by
  unfold osStat
  cases hf : env.fails s <;> cases hx : fs (Path.file name) <;> simp

/-- Every run of the orchestration ends in one of three ways: before the temporary file
exists, after it was created and removed again, or after it was promoted. -/
theorem transcode_cases (wrap : String → Err → Err) (env : Env) (fs : FS)
    (src dest : Bytes) (keep force : Bool) (body : Except Err Bytes) :
    ((transcode wrap env fs src dest keep force body).trace = []
      ∧ (transcode wrap env fs src dest keep force body).fs = fs
      ∧ (transcode wrap env fs src dest keep force body).err ≠ none
      ∧ ((fs (Path.file src)).isSome = true → env.fails Step.statInput = false →
          env.fails Step.openInput = false → force = false →
          (fs (Path.file dest)).isSome = true →
          (transcode wrap env fs src dest keep force body).err = some Err.outputExists)
      ∧ ((fs (Path.file src)).isSome = true → env.fails Step.statInput = false →
          env.fails Step.openInput = false → env.fails Step.tempFile = false →
          fs (Path.temp env.tmpId) = none → force = false ∧ (fs (Path.file dest)).isSome = true))
    ∨ ((force = true ∨ fs (Path.file dest) = none)
      ∧ fs (Path.temp env.tmpId) = none
      ∧ (transcode wrap env fs src dest keep force body).trace
          = [Event.tempCreated env.tmpId, Event.cleaned env.tmpId]
      ∧ (transcode wrap env fs src dest keep force body).fs = fs
      ∧ (transcode wrap env fs src dest keep force body).err ≠ none
      ∧ ((∃ e, body = .error e) ∨ env.fails Step.closeReplace = true))
    ∨ (∃ c, body = .ok c ∧ env.fails Step.closeReplace = false
      ∧ (force = true ∨ fs (Path.file dest) = none)
      ∧ fs (Path.temp env.tmpId) = none
      ∧ (fs (Path.file src)).isSome = true
      ∧ (((transcode wrap env fs src dest keep force body).err ≠ none
          ∧ (env.fails Step.statOutput = true
              ∨ (keep = false ∧ env.fails Step.removeInput = true))
          ∧ (transcode wrap env fs src dest keep force body).trace
              = [Event.tempCreated env.tmpId, Event.promoted env.tmpId dest c]
          ∧ (transcode wrap env fs src dest keep force body).fs
              = fs.set (Path.file dest) (some c))
        ∨ ((transcode wrap env fs src dest keep force body).err = none
          ∧ env.fails Step.statOutput = false ∧ keep = true
          ∧ (transcode wrap env fs src dest keep force body).trace
              = [Event.tempCreated env.tmpId, Event.promoted env.tmpId dest c]
          ∧ (transcode wrap env fs src dest keep force body).fs
              = fs.set (Path.file dest) (some c))
        ∨ ((transcode wrap env fs src dest keep force body).err = none
          ∧ env.fails Step.statOutput = false ∧ keep = false
          ∧ env.fails Step.removeInput = false
          ∧ (transcode wrap env fs src dest keep force body).trace
              = [Event.tempCreated env.tmpId, Event.promoted env.tmpId dest c,
                  Event.removed src]
          ∧ (transcode wrap env fs src dest keep force body).fs
              = (fs.set (Path.file dest) (some c)).set (Path.file src) none))) := by
  unfold transcode
  split
  · -- os.Stat(filename) fails
    rename_i e hs
    have hne : osStat env fs Step.statInput src ≠ none := by simp [hs]
    rw [ne_eq, osStat_none_iff] at hne
    left
    refine ⟨rfl, rfl, by simp, ?_, ?_⟩
    · intro h1 h2 _ _ _
      exact absurd ⟨h2, h1⟩ hne
    · intro h1 h2 _ _ _
      exact absurd ⟨h2, h1⟩ hne
  rename_i hs
  have hsrc := ((osStat_none_iff _ _ _ _).mp hs).2
  split
  · rename_i ho
    left
    refine ⟨rfl, rfl, by simp, ?_, ?_⟩
    · intro _ _ h3 _ _
      simp [h3] at ho
    · intro _ _ h3 _ _
      simp [h3] at ho
  rename_i ho
  split
  · rename_i hg
    left
    simp only [Bool.and_eq_true, Bool.not_eq_true'] at hg
    exact ⟨rfl, rfl, by simp, fun _ _ _ _ _ => rfl, fun _ _ _ _ _ => hg⟩
  rename_i hg
  have hguard : force = true ∨ fs (Path.file dest) = none := by
    cases force
    · right
      simpa using hg
    · left; rfl
  split
  · -- renameio.TempFile fails
    rename_i e ht
    left
    refine ⟨rfl, rfl, by simp, ?_, ?_⟩
    · intro _ _ _ hf hd
      cases hguard with
      | inl h => simp [hf] at h
      | inr h => simp [h] at hd
    · intro _ _ _ h4 h5
      simp [tempFile, h4, h5] at ht
  rename_i fs1 ht
  have htmp : fs (Path.temp env.tmpId) = none ∧ fs1 = fs.set (Path.temp env.tmpId) (some []) := by
    unfold tempFile at ht
    split_ifs at ht with h1 h2
    simp only [Except.ok.injEq] at ht
    exact ⟨by simpa using h2, ht.symm⟩
  obtain ⟨hfree, rfl⟩ := htmp
  split
  · -- the body fails
    rename_i e
    right; left
    exact ⟨hguard, hfree, rfl, cleanup_fresh env fs _ hfree, by simp, Or.inl ⟨e, rfl⟩⟩
  rename_i c
  split
  · -- CloseAtomicallyReplace fails
    rename_i hc
    right; left
    exact ⟨hguard, hfree, rfl, cleanup_fresh2 env fs _ _ hfree, by simp, Or.inr hc⟩
  rename_i hc
  right; right
  refine ⟨c, rfl, by simpa using hc, hguard, hfree, hsrc, ?_⟩
  simp only [rename_staged env fs dest c _ hfree]
  split
  · rename_i e hso
    have hne : osStat env (fs.set (Path.file dest) (some c)) Step.statOutput dest ≠ none := by
      simp [hso]
    rw [ne_eq, osStat_none_iff] at hne
    left
    refine ⟨by simp, Or.inl ?_, rfl, rfl⟩
    by_contra hcon
    exact hne ⟨by simpa using hcon, by simp⟩
  rename_i hso
  have hso' := ((osStat_none_iff _ _ _ _).mp hso).1
  split
  · rename_i hk
    have hk' : keep = false := by simpa using hk
    split
    · rename_i hr
      left
      exact ⟨by simp, Or.inr ⟨hk', hr⟩, rfl, rfl⟩
    · rename_i hr
      right; right
      exact ⟨rfl, hso', hk', by simpa using hr, rfl, rfl⟩
  · rename_i hk
    right; left
    exact ⟨rfl, hso', by simpa using hk, rfl, rfl⟩
/-- CRC registers stay below `2^32`. -/
theorem crcStep_lt (c : Nat) (h : c < 2 ^ 32) : crcStep c < 2 ^ 32 := by
  have h1 : c >>> 1 < 2 ^ 32 := by
    rw [Nat.shiftRight_eq_div_pow]
    exact lt_of_le_of_lt (Nat.div_le_self _ _) h
  unfold crcStep
  split_ifs
  · exact Nat.xor_lt_two_pow h1 (by norm_num)
  · exact h1

theorem crcStep_iter_lt (n c : Nat) (h : c < 2 ^ 32) : crcStep^[n] c < 2 ^ 32 := by
  induction n with
  | zero => simpa using h
  | succ k ih =>
    rw [Function.iterate_succ_apply']
    exact crcStep_lt _ ih

theorem crcByte_lt (c b : Nat) (h : c < 2 ^ 32) : crcByte c b < 2 ^ 32 := by
  unfold crcByte
  apply crcStep_iter_lt
  apply Nat.xor_lt_two_pow h
  have : b % 256 < 256 := Nat.mod_lt _ (by norm_num)
  omega

theorem crcUpdate_lt (p : Bytes) (c : Nat) (h : c < 2 ^ 32) : crcUpdate c p < 2 ^ 32 := by
  induction p generalizing c with
  | nil => simpa [crcUpdate] using h
  | cons b t ih =>
    simp only [crcUpdate, List.foldl_cons]
    exact ih _ (crcByte_lt c b h)

theorem crc32_lt (p : Bytes) : crc32 p < 2 ^ 32 := by
  unfold crc32 crcSum32
  exact Nat.xor_lt_two_pow (crcUpdate_lt p _ (by decide)) (by norm_num)

theorem uint32_nat (n : Nat) : uint32 (n : Int) = n % 4294967296 := by
  unfold uint32
  omega

/-- Hashing and counting do not depend on how the input is cut into writes. -/
theorem mwWrite_append (s : Sinks) (p q : Bytes) :
    mwWrite (mwWrite s p) q = mwWrite s (p ++ q) := by
  simp [mwWrite, crcUpdate, List.foldl_append, Nat.add_assoc]

theorem ioCopy_eq (reads : List Nat) (data : Bytes) (s : Sinks) :
    ioCopy reads data s = mwWrite s data := by
  induction reads generalizing data s with
  | nil =>
    cases data with
    | nil => simp [ioCopy, mwWrite, crcUpdate]
    | cons a t => rfl
  | cons k ks ih =>
    cases data with
    | nil => simp [ioCopy, mwWrite, crcUpdate]
    | cons a t =>
      rw [ioCopy, ih, mwWrite_append, List.take_append_drop]
      exact fun h => List.noConfusion h

/-- What `CompressFile` has put in the temporary file when every step up to the final
`Flush` succeeded. -/
theorem compressBody_success {cx : Codec} {env : Env} {input filename : Bytes} {level : Int}
    {named : Bool} {c : Bytes} (h : compressBody cx env input filename level named = .ok c) :
    (env.fails Step.newWriter = false ∧ env.fails Step.copy = false
      ∧ env.fails Step.closeInput = false ∧ env.fails Step.flush = false
      ∧ env.fails Step.closeWriter = false ∧ env.fails Step.flushBuffer = false)
    ∧ cx.levelOk level = true
    ∧ (∀ v ∈ runes (compressHeader env filename named).Name, 1 ≤ v ∧ v ≤ 255)
    ∧ c = gzipWriterPrefix level (compressHeader env filename named)
          ++ optionalFields (compressHeader env filename named) ++ cx.deflate level input
          ++ putUint32 (crc32 input) ++ putUint32 (input.length % 4294967296) := by
  simp only [compressBody] at h
  split at h
  · cases h
  rename_i f1
  split at h
  · cases h
  rename_i f2
  split at h
  · cases h
  rename_i f3
  split at h
  · cases h
  rename_i w1 hw1
  split at h
  · cases h
  rename_i f4
  split at h
  · cases h
  rename_i f5
  split at h
  · cases h
  rename_i w2 hw2
  split at h
  · cases h
  rename_i f6
  split at h
  · cases h
  rename_i w3 n3 hw3
  split at h
  · cases h
  rename_i w4 n4 hw4
  split at h
  · cases h
  rename_i f7
  simp only [Except.ok.injEq] at h
  have e3 := write_success hw3
  have e4 := write_success hw4
  refine ⟨⟨by simpa using f1, by simpa using f3, by simpa using f4, by simpa using f5,
    by simpa using f6, by simpa using f7⟩, by simpa using f2, ?_⟩
  have key : (∀ v ∈ runes (compressHeader env filename named).Name, 1 ≤ v ∧ v ≤ 255)
      ∧ w2.out = gzipWriterPrefix level (compressHeader env filename named)
          ++ optionalFields (compressHeader env filename named) := by
    by_cases hin : input = []
    · simp only [hin, ne_eq, not_true_eq_false, if_false, if_true, Prod.mk.injEq,
        and_true] at hw1 hw2
      have := gzipWriterHeader_success hw2
      refine ⟨this.2.1, ?_⟩
      rw [this.2.2.2, ← hw1]
      simp
    · simp only [hin, ne_eq, not_false_eq_true, if_false, if_true, Prod.mk.injEq,
        and_true] at hw1 hw2
      have := gzipWriterHeader_success hw1
      refine ⟨this.2.1, ?_⟩
      rw [← hw2, this.2.2.2]
      simp
  refine ⟨key.1, ?_⟩
  rw [← h, e4, e3, key.2]
  simp only [List.append_assoc]

/-- What `XflateCompressFile` has put in the temporary file when every step up to the final
`Flush` succeeded: header, XFLATE payload, CRC32 of the input, size modulo `2^32`. -/
theorem xflateBody_success {cx : Codec} {env : Env} {input filename : Bytes} {level : Int}
    {named : Bool} {c : Bytes} (h : xflateBody cx env input filename level named = .ok c) :
    (env.fails Step.newWriter = false ∧ env.fails Step.copy = false
      ∧ env.fails Step.closeInput = false ∧ env.fails Step.flush = false
      ∧ env.fails Step.closeWriter = false ∧ env.fails Step.flushBuffer = false)
    ∧ cx.levelOk level = true
    ∧ (∀ v ∈ runes (xflateHeader env filename named).Name, 1 ≤ v ∧ v ≤ 255)
    ∧ c = headerPrefix (xflateHeader env filename named)
          ++ optionalFields (xflateHeader env filename named) ++ cx.xflate level input
          ++ putUint32 (crc32 input) ++ putUint32 (input.length % 4294967296) := by
  simp only [xflateBody] at h
  split at h
  · cases h
  rename_i w1 n1 hw1
  split at h
  · cases h
  rename_i f1
  split at h
  · cases h
  rename_i f2
  split at h
  · cases h
  rename_i f3
  split at h
  · cases h
  rename_i f4
  split at h
  · cases h
  rename_i f5
  split at h
  · cases h
  rename_i f6
  split at h
  · cases h
  rename_i w2 n2 hw2
  split at h
  · cases h
  rename_i w3 n3 hw3
  split at h
  · cases h
  rename_i w4 n4 hw4
  split at h
  · cases h
  rename_i f7
  simp only [Except.ok.injEq] at h
  have e1 := writeGzipHeader_success hw1
  have e2 := write_success hw2
  have e3 := write_success hw3
  have e4 := write_success hw4
  refine ⟨⟨by simpa using f1, by simpa using f3, by simpa using f4, by simpa using f5,
    by simpa using f6, by simpa using f7⟩, by simpa using f2, e1.2.1, ?_⟩
  rw [← h, e4, e3, e2, e1.2.2.2]
  simp only [ioCopy_eq, mwWrite, List.nil_append, Nat.zero_add, uint32_nat]
  have hc : crcSum32 (crcUpdate crcInit input) % 4294967296 = crc32 input := by
    have := crc32_lt input
    unfold crc32 at this ⊢
    omega
  rw [hc]

/-- What `DecompressFile` has put in the temporary file when every step up to the final
`Flush` succeeded: the plaintext of the gzip stream. -/
theorem decompressBody_success {cx : Codec} {env : Env} {input : Bytes} {c : Bytes}
    (h : decompressBody cx env input = .ok c) :
    (env.fails Step.newReader = false ∧ env.fails Step.copy = false
      ∧ env.fails Step.closeReader = false ∧ env.fails Step.closeInput = false
      ∧ env.fails Step.flushBuffer = false)
    ∧ gunzip cx (input.length + 1) input = .ok c := by
  simp only [decompressBody] at h
  split at h
  · cases h
  rename_i f1
  split at h
  · cases h
  split at h
  · cases h
  rename_i f2
  split at h
  · cases h
  rename_i plain hg
  split at h
  · cases h
  rename_i w1 n1 hw1
  split at h
  · cases h
  rename_i f3
  split at h
  · cases h
  rename_i f4
  split at h
  · cases h
  rename_i f5
  simp only [Except.ok.injEq] at h
  have e1 := write_success hw1
  refine ⟨⟨by simpa using f1, by simpa using f2, by simpa using f3, by simpa using f4,
    by simpa using f5⟩, ?_⟩
  rw [hg, ← h, e1]
  simp

/-- A run that created the temporary file and did not promote it, or in which a step
that `hW` ties to the window failed, ends with an error and the file system as before. -/
theorem transcode_atomic (wrap : String → Err → Err) (env : Env) (fs : FS)
    (src dest : Bytes) (keep force : Bool) (body : Except Err Bytes) (window : List Step)
    (hW : (∃ s ∈ window, env.fails s = true) →
      (∃ e, body = .error e) ∨ env.fails Step.closeReplace = true)
    (htemp : Event.tempCreated env.tmpId ∈ (transcode wrap env fs src dest keep force body).trace)
    (hfail : (∃ s ∈ window, env.fails s = true)
      ∨ ∀ d c, Event.promoted env.tmpId d c
          ∉ (transcode wrap env fs src dest keep force body).trace) :
    (transcode wrap env fs src dest keep force body).err ≠ none
      ∧ (∀ d c, Event.promoted env.tmpId d c
          ∉ (transcode wrap env fs src dest keep force body).trace)
      ∧ (transcode wrap env fs src dest keep force body).fs = fs
      ∧ fs (Path.temp env.tmpId) = none := by
  have hcases := transcode_cases wrap env fs src dest keep force body
  generalize transcode wrap env fs src dest keep force body = r at *
  rcases hcases with ⟨ht, _⟩ | ⟨_, hfree, ht, hfs, herr, _⟩
    | ⟨c, hb, hcr, _, _, _, hsub⟩
  · rw [ht] at htemp
    simp at htemp
  · refine ⟨herr, ?_, hfs, hfree⟩
    intro d c
    rw [ht]
    simp
  · exfalso
    have hp : Event.promoted env.tmpId dest c ∈ r.trace := by
      rcases hsub with ⟨_, _, ht, _⟩ | ⟨_, _, _, ht, _⟩ | ⟨_, _, _, _, ht, _⟩ <;>
        (rw [ht]; simp)
    rcases hfail with hf | hn
    · rcases hW hf with ⟨e, he⟩ | hc
      · rw [hb] at he
        cases he
      · rw [hcr] at hc
        cases hc
    · exact hn dest c hp

/-- The source is removed only by a run with `keep = false`, and only after promotion. -/
theorem transcode_keeps_source (wrap : String → Err → Err) (env : Env) (fs : FS)
    (src dest : Bytes) (keep force : Bool) (body : Except Err Bytes) :
    (keep = true →
        (∀ p, Event.removed p ∉ (transcode wrap env fs src dest keep force body).trace)
        ∧ (fs (Path.file src) ≠ none →
            (transcode wrap env fs src dest keep force body).fs (Path.file src) ≠ none))
      ∧ (∀ p, Event.removed p ∈ (transcode wrap env fs src dest keep force body).trace →
          p = src ∧ keep = false ∧ ∃ c,
            (transcode wrap env fs src dest keep force body).trace
              = [Event.tempCreated env.tmpId, Event.promoted env.tmpId dest c,
                  Event.removed src])
      ∧ ((∀ d c, Event.promoted env.tmpId d c
            ∉ (transcode wrap env fs src dest keep force body).trace) →
          (transcode wrap env fs src dest keep force body).fs (Path.file src)
            = fs (Path.file src)) := by
  have hcases := transcode_cases wrap env fs src dest keep force body
  generalize transcode wrap env fs src dest keep force body = r at *
  rcases hcases with ⟨ht, hfs, _⟩ | ⟨_, hfree, ht, hfs, herr, _⟩
    | ⟨c, hb, hcr, _, _, hsrc, hsub⟩
  · refine ⟨fun _ => ⟨?_, ?_⟩, ?_, ?_⟩
    · intro p; rw [ht]; simp
    · rw [hfs]; exact id
    · intro p hp; rw [ht] at hp; simp at hp
    · intro _; rw [hfs]
  · refine ⟨fun _ => ⟨?_, ?_⟩, ?_, ?_⟩
    · intro p; rw [ht]; simp
    · rw [hfs]; exact id
    · intro p hp; rw [ht] at hp; simp at hp
    · intro _; rw [hfs]
  · have hset : (fs.set (Path.file dest) (some c)) (Path.file src) ≠ none := by
      by_cases hsd : src = dest
      · simp [hsd]
      · have : Path.file src ≠ Path.file dest := fun h => hsd (by injection h)
        simp only [FS.set_apply, this, if_false]
        intro h0
        rw [h0] at hsrc
        simp at hsrc
    rcases hsub with ⟨_, _, ht, hfs⟩ | ⟨_, _, hk, ht, hfs⟩ | ⟨_, _, hk, _, ht, hfs⟩
    · refine ⟨fun _ => ⟨?_, ?_⟩, ?_, ?_⟩
      · intro p; rw [ht]; simp
      · intro _; rw [hfs]; exact hset
      · intro p hp; rw [ht] at hp; simp at hp
      · intro hn; exact absurd (by rw [ht]; simp) (hn dest c)
    · refine ⟨fun _ => ⟨?_, ?_⟩, ?_, ?_⟩
      · intro p; rw [ht]; simp
      · intro _; rw [hfs]; exact hset
      · intro p hp; rw [ht] at hp; simp at hp
      · intro hn; exact absurd (by rw [ht]; simp) (hn dest c)
    · refine ⟨fun hkt => ?_, ?_, ?_⟩
      · rw [hk] at hkt; cases hkt
      · intro p hp
        rw [ht] at hp
        simp at hp
        exact ⟨hp, hk, c, ht⟩
      · intro hn; exact absurd (by rw [ht]; simp) (hn dest c)

/-- The overwrite guard and the forced replacement. -/
theorem transcode_guard (wrap : String → Err → Err) (env : Env) (fs : FS)
    (src dest : Bytes) (keep force : Bool) (body : Except Err Bytes) :
    ((fs (Path.file dest)).isSome = true → force = false →
        (transcode wrap env fs src dest keep force body).err ≠ none
        ∧ (transcode wrap env fs src dest keep force body).trace = []
        ∧ (transcode wrap env fs src dest keep force body).fs = fs
        ∧ ((fs (Path.file src)).isSome = true → env.fails Step.statInput = false →
            env.fails Step.openInput = false →
            (transcode wrap env fs src dest keep force body).err = some Err.outputExists))
      ∧ (force = true → dest ≠ src → (fs (Path.file src)).isSome = true →
          env.fails Step.statInput = false → env.fails Step.openInput = false →
          env.fails Step.tempFile = false → fs (Path.temp env.tmpId) = none →
          ∀ c, body = .ok c → env.fails Step.closeReplace = false →
          env.fails Step.statOutput = false → env.fails Step.removeInput = false →
          (transcode wrap env fs src dest keep force body).err = none
          ∧ (transcode wrap env fs src dest keep force body).fs (Path.file dest) = some c) := by
  have hcases := transcode_cases wrap env fs src dest keep force body
  generalize transcode wrap env fs src dest keep force body = r at *
  constructor
  · intro hd hf
    rcases hcases with ⟨ht, hfs, herr, hex, _⟩ | ⟨hg, _⟩ | ⟨c, _, _, hg, _⟩
    · exact ⟨herr, ht, hfs, fun h1 h2 h3 => hex h1 h2 h3 hf hd⟩
    · exfalso
      rcases hg with h | h
      · rw [hf] at h; cases h
      · rw [h] at hd; simp at hd
    · exfalso
      rcases hg with h | h
      · rw [hf] at h; cases h
      · rw [h] at hd; simp at hd
  · intro hf hne hs h1 h2 h3 h4 c hb h5 h6 h7
    rcases hcases with ⟨_, _, _, _, hA⟩ | ⟨_, _, _, _, _, hB⟩ | ⟨c', hb', _, _, _, _, hsub⟩
    · have := (hA hs h1 h2 h3 h4).1
      rw [hf] at this
      cases this
    · exfalso
      rcases hB with ⟨e, he⟩ | hc
      · rw [hb] at he; cases he
      · rw [h5] at hc; cases hc
    · rw [hb] at hb'
      cases hb'
      have hpne : Path.file dest ≠ Path.file src := fun h => hne (by injection h)
      rcases hsub with ⟨_, hfl, _⟩ | ⟨herr, _, _, _, hfs⟩ | ⟨herr, _, _, _, _, hfs⟩
      · exfalso
        rcases hfl with h | ⟨_, h⟩
        · rw [h6] at h; cases h
        · rw [h7] at h; cases h
      · exact ⟨herr, by rw [hfs]; simp⟩
      · exact ⟨herr, by rw [hfs]; simp [hpne]⟩
/-- A promotion recorded in the trace is the promotion of what the body produced. -/
theorem transcode_promoted (wrap : String → Err → Err) (env : Env) (fs : FS)
    (src dest : Bytes) (keep force : Bool) (body : Except Err Bytes) (d c : Bytes)
    (h : Event.promoted env.tmpId d c ∈ (transcode wrap env fs src dest keep force body).trace) :
    body = .ok c ∧ d = dest ∧ (fs (Path.file src)).isSome = true := by
  have hcases := transcode_cases wrap env fs src dest keep force body
  generalize transcode wrap env fs src dest keep force body = r at *
  rcases hcases with ⟨ht, _⟩ | ⟨_, _, ht, _⟩ | ⟨c', hb, _, _, _, hsrc, hsub⟩
  · rw [ht] at h; simp at h
  · rw [ht] at h; simp at h
  · have hp : d = dest ∧ c = c' := by
      rcases hsub with ⟨_, _, ht, _⟩ | ⟨_, _, _, ht, _⟩ | ⟨_, _, _, _, ht, _⟩ <;>
        (rw [ht] at h; simpa using h)
    exact ⟨by rw [hb, hp.2], hp.1, hsrc⟩

theorem compressWindow_fails {cx : Codec} {env : Env} {input filename : Bytes} {level : Int}
    {named : Bool} (h : ∃ s ∈ compressWindow, env.fails s = true) :
    ((∃ e, compressBody cx env input filename level named = .error e)
        ∨ env.fails Step.closeReplace = true)
      ∧ ((∃ e, xflateBody cx env input filename level named = .error e)
        ∨ env.fails Step.closeReplace = true) := by
  obtain ⟨s, hs, hf⟩ := h
  constructor
  · cases hb : compressBody cx env input filename level named with
    | error e => exact Or.inl ⟨e, rfl⟩
    | ok c =>
      right
      obtain ⟨⟨h1, h2, h3, h4, h5, h6⟩, _⟩ := compressBody_success hb
      simp only [compressWindow, List.mem_cons, List.mem_singleton, List.not_mem_nil,
        or_false] at hs
      rcases hs with rfl | rfl | rfl | rfl | rfl | rfl | rfl <;> simp_all
  · cases hb : xflateBody cx env input filename level named with
    | error e => exact Or.inl ⟨e, rfl⟩
    | ok c =>
      right
      obtain ⟨⟨h1, h2, h3, h4, h5, h6⟩, _⟩ := xflateBody_success hb
      simp only [compressWindow, List.mem_cons, List.mem_singleton, List.not_mem_nil,
        or_false] at hs
      rcases hs with rfl | rfl | rfl | rfl | rfl | rfl | rfl <;> simp_all

theorem decompressWindow_fails {cx : Codec} {env : Env} {input : Bytes}
    (h : ∃ s ∈ decompressWindow, env.fails s = true) :
    (∃ e, decompressBody cx env input = .error e) ∨ env.fails Step.closeReplace = true := by
  obtain ⟨s, hs, hf⟩ := h
  cases hb : decompressBody cx env input with
  | error e => exact Or.inl ⟨e, rfl⟩
  | ok c =>
    right
    obtain ⟨⟨h1, h2, h3, h4, h5⟩, _⟩ := decompressBody_success hb
    simp only [decompressWindow, List.mem_cons, List.mem_singleton, List.not_mem_nil,
      or_false] at hs
    rcases hs with rfl | rfl | rfl | rfl | rfl | rfl <;> simp_all

theorem or_shl (a b k : Nat) (h : a < 2 ^ k) : a ||| (b <<< k) = a + b * 2 ^ k := by
  rw [Nat.or_comm, Nat.shiftLeft_eq, Nat.mul_comm, ← Nat.mul_add_lt_is_or h, Nat.add_comm]

/-- Decoding the four little-endian bytes of a 32-bit value gives it back. -/
theorem getUint32_putUint32 (v : Nat) (h : v < 2 ^ 32) :
    getUint32 (v % 256) ((v >>> 8) % 256) ((v >>> 16) % 256) ((v >>> 24) % 256) = v := by
  unfold getUint32
  simp only [Nat.shiftRight_eq_div_pow]
  rw [or_shl _ _ 8 (by omega), or_shl _ _ 16 (by omega), or_shl _ _ 24 (by omega)]
  omega

theorem readString_ok (l : Bytes) (i : Nat) (rest : Bytes) (h0 : 0 ∉ l)
    (hlen : i + l.length < 512) : readString i (l ++ 0 :: rest) = some rest := by
  induction l generalizing i with
  | nil =>
    simp only [List.nil_append, readString]
    simp at hlen
    simp [Nat.not_le.mpr hlen]
  | cons a t ih =>
    have ha : a ≠ 0 := fun h => h0 (by simp [h])
    have ht : 0 ∉ t := fun h => h0 (List.mem_cons_of_mem _ h)
    simp only [List.length_cons] at hlen
    simp only [List.cons_append, readString]
    have hi : ¬ i ≥ 512 := by omega
    simp only [hi, if_false, ha]
    exact ih (i + 1) ht (by omega)

theorem latin1_no_nul {s : Bytes} (h : ∀ v ∈ runes s, 1 ≤ v ∧ v ≤ 255) : 0 ∉ runes s :=
  fun hm => by have := h 0 hm; omega

/-- The reader accepts a header without extra field whose strings are Latin-1 text of fewer
than 512 characters. -/
theorem readHeader_ok (header : Header) (m0 m1 m2 m3 xfl os : Nat) (rest : Bytes)
    (hE : header.Extra = none)
    (hn : ∀ v ∈ runes header.Name, 1 ≤ v ∧ v ≤ 255)
    (hc : ∀ v ∈ runes header.Comment, 1 ≤ v ∧ v ≤ 255)
    (hnl : (runes header.Name).length < 512) (hcl : (runes header.Comment).length < 512) :
    readHeader ([gzipID1, gzipID2, gzipDeflate, headerFlags header, m0, m1, m2, m3, xfl, os]
        ++ optionalFields header ++ rest) = .ok rest := by
  have rn := fun r => readString_ok (runes header.Name) 0 r (latin1_no_nul hn) (by omega)
  have rc := fun r => readString_ok (runes header.Comment) 0 r (latin1_no_nul hc) (by omega)
  have a1 : (8 : Nat) &&& 4 = 0 := by decide
  have a2 : (8 : Nat) &&& 8 = 8 := by decide
  have a3 : (8 : Nat) &&& 16 = 0 := by decide
  have a4 : (8 : Nat) &&& 2 = 0 := by decide
  have b1 : (16 : Nat) &&& 4 = 0 := by decide
  have b2 : (16 : Nat) &&& 8 = 0 := by decide
  have b3 : (16 : Nat) &&& 16 = 16 := by decide
  have b4 : (16 : Nat) &&& 2 = 0 := by decide
  have c1 : (24 : Nat) &&& 4 = 0 := by decide
  have c2 : (24 : Nat) &&& 8 = 8 := by decide
  have c3 : (24 : Nat) &&& 16 = 16 := by decide
  have c4 : (24 : Nat) &&& 2 = 0 := by decide
  by_cases hN : header.Name = [] <;> by_cases hC : header.Comment = []
  all_goals
    simp only [readHeader, headerFlags, optionalFields, hE, hN, hC, ne_eq, not_true_eq_false,
      not_false_eq_true, if_true, if_false, List.cons_append, List.nil_append,
      List.append_assoc, List.append_nil, List.singleton_append]
    simp [rn, rc, a1, a2, a3, a4, b1, b2, b3, b4, c1, c2, c3, c4]


theorem readString_long (l : Bytes) (i : Nat) (rest : Bytes) (h0 : 0 ∉ l)
    (hlen : 512 ≤ i + l.length) : readString i (l ++ rest) = none := by
  induction l generalizing i with
  | nil =>
    simp only [List.length_nil, Nat.add_zero] at hlen
    cases rest with
    | nil => rfl
    | cons b t => simp [readString, hlen]
  | cons a t ih =>
    have ha : a ≠ 0 := fun h => h0 (by simp [h])
    have ht : 0 ∉ t := fun h => h0 (List.mem_cons_of_mem _ h)
    simp only [List.length_cons] at hlen
    simp only [List.cons_append, readString]
    by_cases hi : i ≥ 512
    · simp [hi]
    · simp only [hi, if_false, ha]
      exact ih (i + 1) ht (by omega)

/-- The reader rejects a header whose name has 512 characters or more. -/
theorem readHeader_long (header : Header) (m0 m1 m2 m3 xfl os : Nat) (rest : Bytes)
    (hE : header.Extra = none)
    (hn : ∀ v ∈ runes header.Name, 1 ≤ v ∧ v ≤ 255)
    (hnl : 512 ≤ (runes header.Name).length) :
    readHeader ([gzipID1, gzipID2, gzipDeflate, headerFlags header, m0, m1, m2, m3, xfl, os]
        ++ optionalFields header ++ rest) = .error Err.badHeader := by
  have rn := fun r => readString_long (runes header.Name) 0 r (latin1_no_nul hn) (by omega)
  have a1 : (8 : Nat) &&& 4 = 0 := by decide
  have a2 : (8 : Nat) &&& 8 = 8 := by decide
  have c1 : (24 : Nat) &&& 4 = 0 := by decide
  have c2 : (24 : Nat) &&& 8 = 8 := by decide
  have hN : header.Name ≠ [] := by
    intro h
    rw [h] at hnl
    simp [runes, runesFrom] at hnl
  by_cases hC : header.Comment = []
  all_goals
    simp only [readHeader, headerFlags, optionalFields, hE, hN, hC, ne_eq, not_true_eq_false,
      not_false_eq_true, if_true, if_false, List.cons_append, List.nil_append,
      List.append_assoc, List.append_nil, List.singleton_append]
    simp [rn, a1, a2, c1, c2]

/-- A gzip member made of a well-formed header, a payload the decoder inverts and the
matching trailer is read back as the plaintext. -/
theorem gunzip_frame (cx : Codec) (header : Header) (pre payload B : Bytes) (fuel : Nat)
    (m0 m1 m2 m3 xfl os : Nat)
    (hpre : pre = [gzipID1, gzipID2, gzipDeflate, headerFlags header, m0, m1, m2, m3, xfl, os])
    (hE : header.Extra = none)
    (hn : ∀ v ∈ runes header.Name, 1 ≤ v ∧ v ≤ 255)
    (hc : ∀ v ∈ runes header.Comment, 1 ≤ v ∧ v ≤ 255)
    (hnl : (runes header.Name).length < 512) (hcl : (runes header.Comment).length < 512)
    (hinf : ∀ rest, cx.inflate (payload ++ rest) = some (B, rest)) :
    gunzip cx (fuel + 1) (pre ++ optionalFields header ++ payload
        ++ putUint32 (crc32 B) ++ putUint32 (B.length % 4294967296)) = .ok B := by
  have hh := readHeader_ok header m0 m1 m2 m3 xfl os
    (payload ++ (putUint32 (crc32 B) ++ putUint32 (B.length % 4294967296))) hE hn hc hnl hcl
  have hcrc := getUint32_putUint32 (crc32 B) (crc32_lt B)
  have hsz := getUint32_putUint32 (B.length % 4294967296) (by omega)
  subst hpre
  simp only [List.append_assoc] at hh ⊢
  simp only [gunzip, gzipMember, hh, hinf]
  simp only [putUint32, List.cons_append, List.nil_append, hcrc, hsz, ne_eq,
    not_true_eq_false, or_self, if_false, if_true]

/-- A gzip stream whose header carries a name of 512 characters or more is rejected. -/
theorem gunzip_long (cx : Codec) (header : Header) (pre rest : Bytes) (fuel : Nat)
    (m0 m1 m2 m3 xfl os : Nat)
    (hpre : pre = [gzipID1, gzipID2, gzipDeflate, headerFlags header, m0, m1, m2, m3, xfl, os])
    (hE : header.Extra = none)
    (hn : ∀ v ∈ runes header.Name, 1 ≤ v ∧ v ≤ 255)
    (hnl : 512 ≤ (runes header.Name).length) :
    gunzip cx fuel (pre ++ optionalFields header ++ rest) = .error Err.badHeader
      ∨ gunzip cx fuel (pre ++ optionalFields header ++ rest) = .error Err.corrupt := by
  have hh := readHeader_long header m0 m1 m2 m3 xfl os rest hE hn hnl
  subst hpre
  cases fuel with
  | zero => right; rfl
  | succ k =>
    left
    simp only [gunzip, gzipMember, hh]

theorem trimSuffix_append (f s : Bytes) : trimSuffix (f ++ s) s = f := by
  unfold trimSuffix
  rw [if_pos (List.suffix_append f s)]
  exact List.take_left' (by simp)


/-- On an unbounded writer the gzip writer emits the header of well-formed fields. -/
theorem gzipWriterHeader_ok (o : Bytes) (level : Int) (header : Header)
    (hx : ∀ x, header.Extra = some x → x.length ≤ 65535)
    (hn : ∀ v ∈ runes header.Name, 1 ≤ v ∧ v ≤ 255)
    (hc : ∀ v ∈ runes header.Comment, 1 ≤ v ∧ v ≤ 255) :
    gzipWriterHeader ⟨o, none⟩ level header
      = (⟨o ++ (gzipWriterPrefix level header ++ optionalFields header), none⟩, none) := by
  simp only [gzipWriterHeader, write_unbounded, optionalFields]
  cases hE : header.Extra with
  | none =>
    by_cases hN : header.Name = [] <;> by_cases hC : header.Comment = []
    all_goals
      simp only [hN, hC, ne_eq, not_true_eq_false, not_false_eq_true, if_true, if_false,
        writeString_ok _ _ hn, writeString_ok _ _ hc, List.append_assoc, List.append_nil,
        List.nil_append]
  | some x =>
    have hx' := hx x hE
    by_cases hN : header.Name = [] <;> by_cases hC : header.Comment = []
    all_goals
      simp only [hN, hC, ne_eq, not_true_eq_false, not_false_eq_true, if_true, if_false,
        writeBytes_ok _ _ hx', writeString_ok _ _ hn, writeString_ok _ _ hc,
        List.append_assoc, List.append_nil, List.nil_append, List.cons_append]

theorem compressHeader_fields (env : Env) (filename : Bytes) (named : Bool) :
    (compressHeader env filename named).Extra = none
      ∧ (compressHeader env filename named).Comment = []
      ∧ (compressHeader env filename named).Name
          = (if named then filepathBase filename else []) := by
  cases named <;> exact ⟨rfl, rfl, rfl⟩

theorem xflateHeader_fields (env : Env) (filename : Bytes) (named : Bool) :
    (xflateHeader env filename named).Extra = none
      ∧ (xflateHeader env filename named).Comment = ascii "Encoded using XFLATE"
      ∧ (xflateHeader env filename named).Name
          = (if named then filepathBase filename else []) := by
  cases named <;> exact ⟨rfl, rfl, rfl⟩

theorem xflateComment_latin1 :
    ∀ v ∈ runes (ascii "Encoded using XFLATE"), 1 ≤ v ∧ v ≤ 255 := by decide

/-- With no failing call, unbounded output, an accepted level and a Latin-1 name, the steps
of `CompressFile` between the creation of the temporary file and the final `Flush`
all succeed. -/
theorem compressBody_ok (cx : Codec) (env : Env) (input filename : Bytes) (level : Int)
    (named : Bool) (hq : ∀ s, env.fails s = false) (hroom : env.room = none)
    (hl : cx.levelOk level = true)
    (hn : ∀ v ∈ runes (compressHeader env filename named).Name, 1 ≤ v ∧ v ≤ 255) :
    ∃ c, compressBody cx env input filename level named = .ok c := by
  have hf := compressHeader_fields env filename named
  have hw := fun o => gzipWriterHeader_ok o level (compressHeader env filename named)
    (by intro x hx; rw [hf.1] at hx; cases hx) hn
    (by rw [hf.2.1]; intro v hv; simp [runes, runesFrom] at hv)
  by_cases hin : input = []
  · simp [compressBody, hq, hroom, hl, hin, hw, write_unbounded]
  · simp [compressBody, hq, hroom, hl, hin, hw, write_unbounded]

/-- The same for `XflateCompressFile`. -/
theorem xflateBody_ok (cx : Codec) (env : Env) (input filename : Bytes) (level : Int)
    (named : Bool) (hq : ∀ s, env.fails s = false) (hroom : env.room = none)
    (hl : cx.levelOk level = true)
    (hn : ∀ v ∈ runes (xflateHeader env filename named).Name, 1 ≤ v ∧ v ≤ 255) :
    ∃ c, xflateBody cx env input filename level named = .ok c := by
  have hf := xflateHeader_fields env filename named
  have hw := fun o => writeGzipHeader_ok o (xflateHeader env filename named)
    (by intro x hx; rw [hf.1] at hx; cases hx) hn
    (by rw [hf.2.1]; exact xflateComment_latin1)
  simp [xflateBody, hq, hroom, hl, hw, write_unbounded]

/-- With no failing call and unbounded output `DecompressFile` writes out whatever the
gzip reader decodes. -/
theorem decompressBody_ok (cx : Codec) (env : Env) (input B : Bytes)
    (hq : ∀ s, env.fails s = false) (hroom : env.room = none)
    (hg : gunzip cx (input.length + 1) input = .ok B) :
    decompressBody cx env input = .ok B := by
  have hh : ∃ r, readHeader input = .ok r := by
    simp only [gunzip, gzipMember] at hg
    cases hr : readHeader input with
    | error e => simp [hr] at hg
    | ok r => exact ⟨r, rfl⟩
  obtain ⟨r, hr⟩ := hh
  simp [decompressBody, hq, hroom, hg, hr, write_unbounded]

/-- With no failing call, a free temporary name and no overwrite conflict, a run whose
body succeeds returns no error. -/
theorem transcode_quiet (wrap : String → Err → Err) (env : Env) (fs : FS)
    (src dest : Bytes) (keep force : Bool) (body : Except Err Bytes) (c : Bytes)
    (hq : ∀ s, env.fails s = false) (hsrc : (fs (Path.file src)).isSome = true)
    (hfree : fs (Path.temp env.tmpId) = none)
    (hguard : force = true ∨ fs (Path.file dest) = none) (hb : body = .ok c) :
    (transcode wrap env fs src dest keep force body).err = none := by
  have hcases := transcode_cases wrap env fs src dest keep force body
  generalize transcode wrap env fs src dest keep force body = r at *
  rcases hcases with ⟨_, _, _, _, hA⟩ | ⟨_, _, _, _, _, hB⟩ | ⟨c', _, _, _, _, _, hsub⟩
  · exfalso
    have := hA hsrc (hq _) (hq _) (hq _) hfree
    rcases hguard with h | h
    · rw [this.1] at h; cases h
    · rw [h] at this; simp at this
  · exfalso
    rcases hB with ⟨e, he⟩ | h
    · rw [hb] at he; cases he
    · rw [hq] at h; cases h
  · rcases hsub with ⟨_, hfl, _⟩ | ⟨herr, _⟩ | ⟨herr, _⟩
    · exfalso
      rcases hfl with h | ⟨_, h⟩
      · rw [hq] at h; cases h
      · rw [hq] at h; cases h
    · exact herr
    · exact herr

theorem storedInflate_deflate (B rest : Bytes) :
    storedInflate (storedDeflate B ++ rest) = some (B, rest) := by
  induction B with
  | nil => simp [storedDeflate, storedInflate]
  | cons b t ih => simp [storedDeflate, storedInflate, ih]

/-- The stand-in coders satisfy the assumption made on the external coders. -/
theorem storedCodec_inverse : storedCodec.Inverse := by
  refine ⟨?_, ?_, ?_⟩
  · intro l h1 h2
    simp only [storedCodec, decide_eq_true_eq]
    omega
  · intro l B rest
    exact storedInflate_deflate B rest
  · intro l B rest
    exact storedInflate_deflate B rest

/-- What the reader makes of a file written by `CompressFile`. -/
theorem gunzip_compressBody (cx : Codec) (hinv : cx.Inverse) (env : Env)
    (B filename : Bytes) (level : Int) (named : Bool) (c : Bytes)
    (hb : compressBody cx env B filename level named = .ok c) :
    ((runes (if named then filepathBase filename else [])).length < 512 →
        gunzip cx (c.length + 1) c = .ok B)
      ∧ (∀ c2, gunzip cx (c.length + 1) c = .ok c2 → c2 = B) := by
  obtain ⟨_, _, hn, hc⟩ := compressBody_success hb
  have hf := compressHeader_fields env filename named
  have hpre : ∃ m0 m1 m2 m3 xfl os, gzipWriterPrefix level (compressHeader env filename named)
      = [gzipID1, gzipID2, gzipDeflate, headerFlags (compressHeader env filename named),
          m0, m1, m2, m3, xfl, os] := ⟨_, _, _, _, _, _, rfl⟩
  obtain ⟨m0, m1, m2, m3, xfl, os, hpre⟩ := hpre
  have hcom : ∀ v ∈ runes (compressHeader env filename named).Comment, 1 ≤ v ∧ v ≤ 255 := by
    rw [hf.2.1]; intro v hv; simp [runes, runesFrom] at hv
  have hcl : (runes (compressHeader env filename named).Comment).length < 512 := by
    rw [hf.2.1]; simp [runes, runesFrom]
  have hshort : (runes (if named then filepathBase filename else [])).length < 512 →
      gunzip cx (c.length + 1) c = .ok B := by
    intro hlen
    rw [← hf.2.2] at hlen
    rw [hc]
    exact gunzip_frame cx _ _ _ B _ m0 m1 m2 m3 xfl os hpre hf.1 hn hcom hlen hcl
      (fun rest => hinv.2.1 level B rest)
  refine ⟨hshort, ?_⟩
  intro c2 h2
  by_cases hlen : (runes (if named then filepathBase filename else [])).length < 512
  · rw [hshort hlen] at h2
    cases h2
    rfl
  · exfalso
    have hlong : 512 ≤ (runes (compressHeader env filename named).Name).length := by
      rw [hf.2.2]; omega
    generalize c.length + 1 = fuel at h2
    have := gunzip_long cx _ _ (cx.deflate level B ++ (putUint32 (crc32 B)
      ++ putUint32 (B.length % 4294967296))) fuel m0 m1 m2 m3 xfl os hpre hf.1 hn hlong
    rw [hc] at h2
    simp only [List.append_assoc] at this h2
    rcases this with h | h <;> (rw [h] at h2; cases h2)

/-- What the reader makes of a file written by `XflateCompressFile`. -/
theorem gunzip_xflateBody (cx : Codec) (hinv : cx.Inverse) (env : Env)
    (B filename : Bytes) (level : Int) (named : Bool) (c : Bytes)
    (hb : xflateBody cx env B filename level named = .ok c) :
    ((runes (if named then filepathBase filename else [])).length < 512 →
        gunzip cx (c.length + 1) c = .ok B)
      ∧ (∀ c2, gunzip cx (c.length + 1) c = .ok c2 → c2 = B) := by
  obtain ⟨_, _, hn, hc⟩ := xflateBody_success hb
  have hf := xflateHeader_fields env filename named
  have hpre : ∃ m0 m1 m2 m3 xfl os, headerPrefix (xflateHeader env filename named)
      = [gzipID1, gzipID2, gzipDeflate, headerFlags (xflateHeader env filename named),
          m0, m1, m2, m3, xfl, os] := ⟨_, _, _, _, _, _, rfl⟩
  obtain ⟨m0, m1, m2, m3, xfl, os, hpre⟩ := hpre
  have hcom : ∀ v ∈ runes (xflateHeader env filename named).Comment, 1 ≤ v ∧ v ≤ 255 := by
    rw [hf.2.1]; exact xflateComment_latin1
  have hcl : (runes (xflateHeader env filename named).Comment).length < 512 := by
    rw [hf.2.1]; decide
  have hshort : (runes (if named then filepathBase filename else [])).length < 512 →
      gunzip cx (c.length + 1) c = .ok B := by
    intro hlen
    rw [← hf.2.2] at hlen
    rw [hc]
    exact gunzip_frame cx _ _ _ B _ m0 m1 m2 m3 xfl os hpre hf.1 hn hcom hlen hcl
      (fun rest => hinv.2.2 level B rest)
  refine ⟨hshort, ?_⟩
  intro c2 h2
  by_cases hlen : (runes (if named then filepathBase filename else [])).length < 512
  · rw [hshort hlen] at h2
    cases h2
    rfl
  · exfalso
    have hlong : 512 ≤ (runes (xflateHeader env filename named).Name).length := by
      rw [hf.2.2]; omega
    generalize c.length + 1 = fuel at h2
    have := gunzip_long cx _ _ (cx.xflate level B ++ (putUint32 (crc32 B)
      ++ putUint32 (B.length % 4294967296))) fuel m0 m1 m2 m3 xfl os hpre hf.1 hn hlong
    rw [hc] at h2
    simp only [List.append_assoc] at this h2
    rcases this with h | h <;> (rw [h] at h2; cases h2)


/-- A run that returns no error has promoted the output of its body; the destination
holds it when it differs from the source, which is gone when `keep` is false. -/
theorem transcode_output (wrap : String → Err → Err) (env : Env) (fs : FS)
    (src dest : Bytes) (keep force : Bool) (body : Except Err Bytes) (hne : dest ≠ src)
    (hok : (transcode wrap env fs src dest keep force body).err = none) :
    ∃ c, body = .ok c
      ∧ (transcode wrap env fs src dest keep force body).fs (Path.file dest) = some c
      ∧ (keep = false →
          (transcode wrap env fs src dest keep force body).fs (Path.file src) = none) := by
  have hcases := transcode_cases wrap env fs src dest keep force body
  generalize transcode wrap env fs src dest keep force body = r at *
  have hpne : Path.file dest ≠ Path.file src := fun h => hne (by injection h)
  rcases hcases with ⟨_, _, herr, _⟩ | ⟨_, _, _, _, herr, _⟩ | ⟨c, hb, _, _, _, _, hsub⟩
  · exact absurd hok herr
  · exact absurd hok herr
  · rcases hsub with ⟨herr, _⟩ | ⟨_, _, hk, _, hfs⟩ | ⟨_, _, hk, _, _, hfs⟩
    · exact absurd hok herr
    · refine ⟨c, hb, by rw [hfs]; simp, ?_⟩
      intro h; rw [hk] at h; cases h
    · exact ⟨c, hb, by rw [hfs]; simp [hpne], fun _ => by rw [hfs]; simp⟩

theorem append_ne_self (f s : Bytes) (h : s ≠ []) : f ++ s ≠ f := by
  intro h2
  exact h (List.append_right_eq_self.mp h2)

/-- Decompressing `filename+suffix` back to `filename`. -/
theorem DecompressFile_result (cx : Codec) (env : Env) (fs : FS) (filename suffix : Bytes)
    (keep force verbose : Bool) (gz : Bytes) (hsuf : suffix ≠ [])
    (hgz : fs (Path.file (filename ++ suffix)) = some gz) :
    ((DecompressFile cx env fs (filename ++ suffix) suffix keep force verbose).err = none →
        ∃ c, gunzip cx (gz.length + 1) gz = .ok c
          ∧ (DecompressFile cx env fs (filename ++ suffix) suffix keep force verbose).fs
              (Path.file filename) = some c)
      ∧ ((∀ s, env.fails s = false) → env.room = none → fs (Path.temp env.tmpId) = none →
          (force = true ∨ fs (Path.file filename) = none) →
          ∀ B, gunzip cx (gz.length + 1) gz = .ok B →
          (DecompressFile cx env fs (filename ++ suffix) suffix keep force verbose).err
            = none) := by
  rw [DecompressFile_eq, trimSuffix_append, hgz]
  simp only [Option.getD_some]
  constructor
  · intro hok
    obtain ⟨c, hb, hfs, _⟩ := transcode_output _ _ _ _ _ _ _ _
      (fun h => append_ne_self filename suffix hsuf h.symm) hok
    exact ⟨c, (decompressBody_success hb).2, hfs⟩
  · intro hq hroom hfree hguard B hg
    exact transcode_quiet _ _ _ _ _ _ _ _ B hq (by simp [hgz]) hfree hguard
      (decompressBody_ok cx env gz B hq hroom hg)


/-- The two compressors share their result: a successful run leaves at the destination a
file that the gzip reader decodes to the source. -/
theorem compress_then_decompress (cx : Codec) (env1 env2 : Env) (fs : FS)
    (filename suffix : Bytes) (keep force named keep2 force2 verbose2 : Bool)
    (B : Bytes) (body : Except Err Bytes)
    (hbody : ∀ c, body = .ok c →
      ((runes (if named then filepathBase filename else [])).length < 512 →
        gunzip cx (c.length + 1) c = .ok B)
      ∧ (∀ c2, gunzip cx (c.length + 1) c = .ok c2 → c2 = B))
    (hsuffix : suffix ≠ [])
    (hok : (transcode Err.wrap env1 fs filename (filename ++ suffix) keep force body).err = none) :
    (∃ gz, (transcode Err.wrap env1 fs filename (filename ++ suffix) keep force body).fs
        (Path.file (filename ++ suffix)) = some gz)
      ∧ ((DecompressFile cx env2
            (transcode Err.wrap env1 fs filename (filename ++ suffix) keep force body).fs
            (filename ++ suffix) suffix keep2 force2 verbose2).err = none →
          (DecompressFile cx env2
            (transcode Err.wrap env1 fs filename (filename ++ suffix) keep force body).fs
            (filename ++ suffix) suffix keep2 force2 verbose2).fs (Path.file filename) = some B)
      ∧ ((∀ s, env2.fails s = false) → env2.room = none →
          (transcode Err.wrap env1 fs filename (filename ++ suffix) keep force body).fs
            (Path.temp env2.tmpId) = none →
          (force2 = true ∨ keep = false) →
          (runes (if named then filepathBase filename else [])).length < 512 →
          (DecompressFile cx env2
            (transcode Err.wrap env1 fs filename (filename ++ suffix) keep force body).fs
            (filename ++ suffix) suffix keep2 force2 verbose2).err = none) := by
  obtain ⟨gz, hb, hfs, hkeep⟩ := transcode_output _ _ _ _ _ _ _ _
    (append_ne_self filename suffix hsuffix) hok
  generalize (transcode Err.wrap env1 fs filename (filename ++ suffix) keep force body).fs
    = fs1 at *
  have hd := DecompressFile_result cx env2 fs1 filename suffix keep2 force2 verbose2 gz
    hsuffix hfs
  refine ⟨⟨gz, hfs⟩, ?_, ?_⟩
  · intro hok2
    obtain ⟨c, hg, hc⟩ := hd.1 hok2
    rw [hc, (hbody gz hb).2 c hg]
  · intro hq hroom hfree hguard hlen
    refine hd.2 hq hroom hfree ?_ B ((hbody gz hb).1 hlen)
    rcases hguard with h | h
    · exact Or.inl h
    · exact Or.inr (hkeep h)

theorem drop_append_suffix (P F : Bytes) :
    (P ++ F).drop ((P ++ F).length - F.length) = F := by
  apply List.drop_left'
  simp

/-- The only error of a `Writer` is the short write. -/
theorem write_error {w w1 : Writer} {p : Bytes} {n : Nat} {e : Err}
    (h : w.write p = (w1, n, some e)) : e = Err.shortWrite := by
  unfold Writer.write at h
  cases hr : w.room with
  | none => simp [hr] at h
  | some r =>
    simp only [hr] at h
    split_ifs at h
    · simp at h
    · simp only [Prod.mk.injEq, Option.some.injEq] at h
      exact h.2.2.symm

/-- On a slice that fits its 2-byte length, an error of `writeBytes` comes from the writer
and is never the size error. -/
theorem writeBytes_small_error (w : Writer) (b : Bytes) (h : b.length ≤ 65535) :
    (writeBytes w b).2 ≠ some Err.extraTooLarge := by
  have hbig : ¬ b.length > 0xffff := by omega
  simp only [writeBytes, hbig, if_false]
  rcases write_cases w (putUint16 (uint16 b.length)) with ⟨wa, n, ha⟩ | ⟨wa, n, e, ha⟩
  · simp only [ha]
    rcases write_cases wa b with ⟨wb, m, hb⟩ | ⟨wb, m, e, hb⟩
    · simp [hb]
    · simp [hb, write_error hb]
  · simp [ha, write_error ha]

/-- With `keep` true and a destination that is not the source path, the source holds
its content after the run. -/
theorem transcode_keeps_content (wrap : String → Err → Err) (env : Env) (fs : FS)
    (src dest : Bytes) (keep force : Bool) (body : Except Err Bytes) (hk : keep = true)
    (hne : dest ≠ src) :
    (transcode wrap env fs src dest keep force body).fs (Path.file src)
      = fs (Path.file src) := by
  have hcases := transcode_cases wrap env fs src dest keep force body
  generalize transcode wrap env fs src dest keep force body = r at *
  have hpne : Path.file src ≠ Path.file dest :=
    fun h => hne (by injection h with h1; exact h1.symm)
  rcases hcases with ⟨_, hfs, _⟩ | ⟨_, _, _, hfs, _⟩ | ⟨c, _, _, _, _, _, hsub⟩
  · rw [hfs]
  · rw [hfs]
  · rcases hsub with ⟨_, _, _, hfs⟩ | ⟨_, _, _, _, hfs⟩ | ⟨_, _, hkf, _⟩
    · rw [hfs]; simp [hpne]
    · rw [hfs]; simp [hpne]
    · rw [hk] at hkf; cases hkf

/-- Retention of the content: in every run of `CompressFile`, `XflateCompressFile` or
`DecompressFile` with `keep` true whose destination is not the source path, the source
file holds afterwards what it held before. -/
theorem source_kept_when_distinct (cx : Codec) (env : Env) (fs : FS) (filename suffix : Bytes)
    (level : Int) (keep force named verbose : Bool) (r : Outcome) (dest : Bytes)
    (hr : (r = CompressFile cx env fs filename suffix level keep force named verbose
            ∧ dest = filename ++ suffix)
        ∨ (r = XflateCompressFile cx env fs filename suffix level keep force named verbose
            ∧ dest = filename ++ suffix)
        ∨ (r = DecompressFile cx env fs filename suffix keep force verbose
            ∧ dest = trimSuffix filename suffix))
    (hk : keep = true) (hne : dest ≠ filename) :
    r.fs (Path.file filename) = fs (Path.file filename) := by
  rcases hr with ⟨rfl, rfl⟩ | ⟨rfl, rfl⟩ | ⟨rfl, rfl⟩
  · rw [CompressFile_eq]
    exact transcode_keeps_content _ _ _ _ _ _ _ _ hk hne
  · rw [XflateCompressFile_eq]
    exact transcode_keeps_content _ _ _ _ _ _ _ _ hk hne
  · rw [DecompressFile_eq]
    exact transcode_keeps_content _ _ _ _ _ _ _ _ hk hne

/-! ## Claims -/

/-- C5. Header layout: for a header whose Extra has at most 65535 bytes and whose Name and
Comment hold only code points 1..255, `writeGzipHeader` on a writer that does not fail
succeeds, returns 10, and appends exactly `1F 8B 08`, the flag byte (bit 2 iff Extra is
present, bit 3 iff Name is non-empty, bit 4 iff Comment is non-empty, no other bit), the
modification time modulo `2^32` as 4 little-endian bytes, a zero byte, the OS byte, then the
extra field (2-byte little-endian length and bytes), the NUL-terminated name and the
NUL-terminated comment, each only when present. -/
theorem writeGzipHeader_layout (w : Writer) (header : Header) (hw : w.room = none)
    (hx : ∀ x, header.Extra = some x → x.length ≤ 65535)
    (hn : ∀ v ∈ runes header.Name, 1 ≤ v ∧ v ≤ 255)
    (hc : ∀ v ∈ runes header.Comment, 1 ≤ v ∧ v ≤ 255) :
    ∃ flag m : Nat,
      (∀ i, flag.testBit i = true ↔
        (i = 2 ∧ header.Extra ≠ none) ∨ (i = 3 ∧ header.Name ≠ [])
          ∨ (i = 4 ∧ header.Comment ≠ [])) ∧
      (m : Int) = header.ModTime % 2 ^ 32 ∧
      writeGzipHeader w header =
        (⟨w.out ++ ([0x1F, 0x8B, 0x08, flag, m % 256, m / 256 % 256, m / 65536 % 256,
              m / 16777216 % 256, 0, header.OS]
            ++ ((match header.Extra with
                  | some x => [x.length % 256, x.length / 256] ++ x
                  | none => [])
              ++ (if header.Name = [] then [] else runes header.Name ++ [0])
              ++ (if header.Comment = [] then [] else runes header.Comment ++ [0]))),
          none⟩, 10, none) := by
  obtain ⟨o, room⟩ := w
  simp only at hw
  subst hw
  refine ⟨headerFlags header, uint32 header.ModTime, headerFlags_testBit header,
    uint32_cast header.ModTime, ?_⟩
  rw [writeGzipHeader_ok o header hx hn hc]
  simp only [headerPrefix, putUint32_div, optionalFields, gzipID1, gzipID2, gzipDeflate,
    List.cons_append, List.nil_append, List.append_assoc]

/-- Witness for C5: name `a`, comment `é` (as UTF-8), a one-byte extra field. -/
theorem writeGzipHeader_layout_witness :
    ∃ flag m : Nat,
      (∀ i, flag.testBit i = true ↔
        (i = 2 ∧ (some [7] : Option Bytes) ≠ none) ∨ (i = 3 ∧ ([97] : Bytes) ≠ [])
          ∨ (i = 4 ∧ ([0xC3, 0xA9] : Bytes) ≠ [])) ∧
      (m : Int) = (1700000000 : Int) % 2 ^ 32 ∧
      writeGzipHeader ⟨[], none⟩ ⟨[0xC3, 0xA9], some [7], 1700000000, [97], 3⟩ =
        (⟨[] ++ ([0x1F, 0x8B, 0x08, flag, m % 256, m / 256 % 256, m / 65536 % 256,
              m / 16777216 % 256, 0, 3]
            ++ (([1 % 256, 1 / 256] ++ [7])
              ++ (runes [97] ++ [0])
              ++ (runes [0xC3, 0xA9] ++ [0]))),
          none⟩, 10, none) :=
  writeGzipHeader_layout ⟨[], none⟩ ⟨[0xC3, 0xA9], some [7], 1700000000, [97], 3⟩ rfl
    (by intro x hx; cases hx; decide) (by decide) (by decide)

theorem takeWhile_nul (l : Bytes) (h : 0 ∉ l) :
    (l ++ [0]).takeWhile (fun b => decide (b ≠ 0)) = l := by
  induction l with
  | nil => rfl
  | cons a t ih =>
    have ha : a ≠ 0 := fun h0 => h (by simp [h0])
    have ht : 0 ∉ t := fun h0 => h (List.mem_cons_of_mem _ h0)
    show List.takeWhile _ (a :: (t ++ [0])) = a :: t
    rw [List.takeWhile_cons, if_pos (by simpa using ha), ih ht]

/-- C8. Latin-1 round trip: on a writer that does not fail, for a string whose code
points all lie in 1..255, `writeString` succeeds and appends one byte per code point,
equal to it and in order, then a single `0x00`; no other byte written is `0x00`, so the
bytes up to the first NUL are the code points of the string; and for an ASCII-only
string the bytes of the conversion path are the bytes of the fast path. -/
theorem writeString_latin1_output (w : Writer) (s : Bytes) (hw : w.room = none)
    (h : ∀ v ∈ runes s, 1 ≤ v ∧ v ≤ 255) :
    writeString w s = (⟨w.out ++ (runes s ++ [0]), none⟩, none)
      ∧ (runes s ++ [0]).length = (runes s).length + 1
      ∧ 0 ∉ runes s
      ∧ (runes s ++ [0]).takeWhile (fun b => decide (b ≠ 0)) = runes s
      ∧ ((∀ v ∈ runes s, v ≤ 0x7f) → (runes s).map (· % 256) = s) := by
  obtain ⟨o, room⟩ := w
  simp only at hw
  subst hw
  have h0 : 0 ∉ runes s := fun hm => by have := h 0 hm; omega
  refine ⟨writeString_ok o s h, by simp, h0, takeWhile_nul _ h0, ?_⟩
  intro hasc
  rw [latin1_bytes s h, runes_ascii s hasc]

/-- Witness for C8: the string `é!` (UTF-8 `C3 A9 21`) is written as `E9 21 00`. -/
theorem writeString_latin1_output_witness :
    writeString ⟨[5], none⟩ [0xC3, 0xA9, 0x21]
        = (⟨[5] ++ (runes [0xC3, 0xA9, 0x21] ++ [0]), none⟩, none)
      ∧ (runes [0xC3, 0xA9, 0x21] ++ [0]).length = (runes [0xC3, 0xA9, 0x21]).length + 1
      ∧ 0 ∉ runes [0xC3, 0xA9, 0x21]
      ∧ (runes [0xC3, 0xA9, 0x21] ++ [0]).takeWhile (fun b => decide (b ≠ 0))
          = runes [0xC3, 0xA9, 0x21]
      ∧ ((∀ v ∈ runes [0xC3, 0xA9, 0x21], v ≤ 0x7f)
          → (runes [0xC3, 0xA9, 0x21]).map (· % 256) = [0xC3, 0xA9, 0x21]) :=
  writeString_latin1_output ⟨[5], none⟩ [0xC3, 0xA9, 0x21] rfl (by decide)

/-- C7, counterexample. The name U+65E5 (UTF-8 `E6 97 A5`) holds a code point above `0xFF`;
`writeGzipHeader` fails with the encoding error, yet the writer has received the 10 bytes
of the fixed prefix. -/
theorem writeGzipHeader_bad_name_writes_prefix :
    NonLatin1 [0xE6, 0x97, 0xA5]
      ∧ (writeGzipHeader ⟨[], none⟩ ⟨[], none, 0, [0xE6, 0x97, 0xA5], 3⟩).2.2
          = some Err.nonLatin1
      ∧ (writeGzipHeader ⟨[], none⟩ ⟨[], none, 0, [0xE6, 0x97, 0xA5], 3⟩).1.out
          = [0x1F, 0x8B, 8, 8, 0, 0, 0, 0, 0, 3] := by
  refine ⟨⟨0x65E5, by decide, Or.inr (by decide)⟩, by decide, by decide⟩

/-- C7, amended. On a writer that does not fail, for a header whose Extra is absent or has
at most 65535 bytes and whose Name or Comment holds a code point above `0xFF` or a NUL,
`writeGzipHeader` fails with the non-Latin-1 encoding error and returns 10; `writeString`
rejects the offending string before writing any of its bytes, but the writer has by then
received the 10-byte prefix, the extra field, and the name when the comment is the
offending string. -/
theorem writeGzipHeader_encoding_error (w : Writer) (header : Header) (hw : w.room = none)
    (hx : ∀ x, header.Extra = some x → x.length ≤ 65535)
    (hbad : NonLatin1 header.Name ∨ NonLatin1 header.Comment) :
    (writeGzipHeader w header).2.2 = some Err.nonLatin1
      ∧ (writeGzipHeader w header).2.1 = 10
      ∧ (∀ w0 s, NonLatin1 s → writeString w0 s = (w0, some Err.nonLatin1))
      ∧ (NonLatin1 header.Name →
          (writeGzipHeader w header).1.out = w.out ++ (headerPrefix header
            ++ (match header.Extra with
                | some x => [x.length % 256, x.length / 256] ++ x
                | none => [])))
      ∧ (¬ NonLatin1 header.Name →
          (writeGzipHeader w header).1.out = w.out ++ (headerPrefix header
            ++ (match header.Extra with
                | some x => [x.length % 256, x.length / 256] ++ x
                | none => [])
            ++ (if header.Name = [] then [] else runes header.Name ++ [0]))) := by
  obtain ⟨o, room⟩ := w
  simp only at hw
  subst hw
  have hlen : (headerPrefix header).length = 10 := by simp [headerPrefix, putUint32]
  have hne : ∀ s, NonLatin1 s → s ≠ [] := by
    intro s hs h0
    obtain ⟨v, hv, _⟩ := hs
    simp [h0, runes, runesFrom] at hv
  by_cases hN : NonLatin1 header.Name
  · have hn0 := hne _ hN
    have hws := fun o1 => writeString_bad ⟨o1, none⟩ header.Name hN
    refine ⟨?_, ?_, fun w0 s hs => writeString_bad w0 s hs, fun _ => ?_, fun h => absurd hN h⟩
    all_goals
      cases hE : header.Extra with
      | none =>
        simp only [writeGzipHeader, write_unbounded, hlen, hE, ne_eq, hn0,
          not_false_eq_true, if_true, hws, List.append_nil]
      | some x =>
        simp only [writeGzipHeader, write_unbounded, hlen, hE, writeBytes_ok _ _ (hx x hE),
          ne_eq, hn0, not_false_eq_true, if_true, hws, List.append_assoc]
  · have hC : NonLatin1 header.Comment := hbad.resolve_left hN
    have hc0 := hne _ hC
    have hwc := fun o1 => writeString_bad ⟨o1, none⟩ header.Comment hC
    have hnl : ∀ v ∈ runes header.Name, 1 ≤ v ∧ v ≤ 255 := by
      intro v hv
      by_contra hcon
      exact hN ⟨v, hv, by omega⟩
    have hwn := fun o1 => writeString_ok o1 header.Name hnl
    refine ⟨?_, ?_, fun w0 s hs => writeString_bad w0 s hs, fun h => absurd h hN, fun _ => ?_⟩
    all_goals
      cases hE : header.Extra with
      | none =>
        by_cases hn0 : header.Name = []
        · simp only [writeGzipHeader, write_unbounded, hlen, hE, ne_eq, hn0, hc0,
            not_true_eq_false, not_false_eq_true, if_true, if_false, hwc, List.append_nil]
        · simp only [writeGzipHeader, write_unbounded, hlen, hE, ne_eq, hn0, hc0,
            not_false_eq_true, if_true, if_false, hwn, hwc, List.append_nil,
            List.append_assoc, List.nil_append]
      | some x =>
        by_cases hn0 : header.Name = []
        · simp only [writeGzipHeader, write_unbounded, hlen, hE, writeBytes_ok _ _ (hx x hE),
            ne_eq, hn0, hc0, not_true_eq_false, not_false_eq_true, if_true, if_false, hwc,
            List.append_nil, List.append_assoc]
        · simp only [writeGzipHeader, write_unbounded, hlen, hE, writeBytes_ok _ _ (hx x hE),
            ne_eq, hn0, hc0, not_false_eq_true, if_true, if_false, hwn, hwc,
            List.append_nil, List.append_assoc, List.nil_append]

/-- C2. Atomicity: for `CompressFile`, `XflateCompressFile` and `DecompressFile`, when the
temporary file was created and then a step up to and including `CloseAtomicallyReplace`
fails (or, more generally, the run does not promote), the operation returns an error,
no promotion took place, the destination is as before, the temporary file is gone, the
source is as before, and so is every other path. -/
theorem atomic_until_promoted (cx : Codec) (env : Env) (fs : FS) (filename suffix : Bytes)
    (level : Int) (keep force named verbose : Bool) (r : Outcome) (dest : Bytes)
    (window : List Step)
    (hr : (r = CompressFile cx env fs filename suffix level keep force named verbose
            ∧ dest = filename ++ suffix ∧ window = compressWindow)
        ∨ (r = XflateCompressFile cx env fs filename suffix level keep force named verbose
            ∧ dest = filename ++ suffix ∧ window = compressWindow)
        ∨ (r = DecompressFile cx env fs filename suffix keep force verbose
            ∧ dest = trimSuffix filename suffix ∧ window = decompressWindow))
    (htemp : Event.tempCreated env.tmpId ∈ r.trace)
    (hfail : (∃ s ∈ window, env.fails s = true)
      ∨ ∀ d c, Event.promoted env.tmpId d c ∉ r.trace) :
    r.err ≠ none
      ∧ (∀ d c, Event.promoted env.tmpId d c ∉ r.trace)
      ∧ r.fs (Path.file dest) = fs (Path.file dest)
      ∧ r.fs (Path.temp env.tmpId) = none
      ∧ r.fs (Path.file filename) = fs (Path.file filename)
      ∧ (∀ p, r.fs p = fs p) := by
  have key : r.err ≠ none ∧ (∀ d c, Event.promoted env.tmpId d c ∉ r.trace) ∧ r.fs = fs
      ∧ fs (Path.temp env.tmpId) = none := by
    rcases hr with ⟨rfl, rfl, rfl⟩ | ⟨rfl, rfl, rfl⟩ | ⟨rfl, rfl, rfl⟩
    · rw [CompressFile_eq] at htemp hfail ⊢
      exact transcode_atomic _ _ _ _ _ _ _ _ compressWindow
        (fun h => (compressWindow_fails h).1) htemp hfail
    · rw [XflateCompressFile_eq] at htemp hfail ⊢
      exact transcode_atomic _ _ _ _ _ _ _ _ compressWindow
        (fun h => (compressWindow_fails h).2) htemp hfail
    · rw [DecompressFile_eq] at htemp hfail ⊢
      exact transcode_atomic _ _ _ _ _ _ _ _ decompressWindow
        (fun h => decompressWindow_fails h) htemp hfail
  obtain ⟨h1, h2, h3, h4⟩ := key
  refine ⟨h1, h2, by rw [h3], by rw [h3, h4], by rw [h3], fun p => by rw [h3]⟩

/-- Witness for C2: `XflateCompressFile` over an existing `a.txt.gz`, with
`CloseAtomicallyReplace` failing. -/
theorem atomic_until_promoted_witness :
    (XflateCompressFile storedCodec (Env.failing Step.closeReplace) demoFSOld (ascii "a.txt")
        (ascii ".gz") 5 false true true false).err ≠ none
      ∧ (XflateCompressFile storedCodec (Env.failing Step.closeReplace) demoFSOld
          (ascii "a.txt") (ascii ".gz") 5 false true true false).fs
            (Path.file (ascii "a.txt" ++ ascii ".gz"))
          = demoFSOld (Path.file (ascii "a.txt" ++ ascii ".gz"))
      ∧ (XflateCompressFile storedCodec (Env.failing Step.closeReplace) demoFSOld
          (ascii "a.txt") (ascii ".gz") 5 false true true false).fs
            (Path.temp (Env.failing Step.closeReplace).tmpId) = none :=
  have h := atomic_until_promoted storedCodec (Env.failing Step.closeReplace) demoFSOld
    (ascii "a.txt") (ascii ".gz") 5 false true true false _ (ascii "a.txt" ++ ascii ".gz")
    compressWindow (Or.inr (Or.inl ⟨rfl, rfl, rfl⟩)) (by decide)
    (Or.inl ⟨Step.closeReplace, by decide, by decide⟩)
  ⟨h.1, h.2.2.1, h.2.2.2.1⟩

/-- C3. Overwrite guard: for `CompressFile` and `XflateCompressFile`, when the destination
`filename+suffix` exists and `force` is false the operation fails, creates no temporary
file and leaves the file system unchanged, and the error is `output file already exists`
once the source could be examined and opened; when `force` is true, the suffix is not
empty and every later step succeeds, the operation succeeds and the destination holds
exactly the output produced from the source. -/
theorem overwrite_guard (cx : Codec) (env : Env) (fs : FS) (filename suffix : Bytes)
    (level : Int) (keep force named verbose : Bool) (r : Outcome) (body : Except Err Bytes)
    (hr : (r = CompressFile cx env fs filename suffix level keep force named verbose
            ∧ body = compressBody cx env ((fs (Path.file filename)).getD []) filename
                level named)
        ∨ (r = XflateCompressFile cx env fs filename suffix level keep force named verbose
            ∧ body = xflateBody cx env ((fs (Path.file filename)).getD []) filename
                level named)) :
    ((fs (Path.file (filename ++ suffix))).isSome = true → force = false →
        r.err ≠ none ∧ r.trace = [] ∧ r.fs = fs
        ∧ ((fs (Path.file filename)).isSome = true → env.fails Step.statInput = false →
            env.fails Step.openInput = false → r.err = some Err.outputExists))
      ∧ (force = true → suffix ≠ [] → (fs (Path.file filename)).isSome = true →
          env.fails Step.statInput = false → env.fails Step.openInput = false →
          env.fails Step.tempFile = false → fs (Path.temp env.tmpId) = none →
          ∀ c, body = .ok c → env.fails Step.closeReplace = false →
          env.fails Step.statOutput = false → env.fails Step.removeInput = false →
          r.err = none ∧ r.fs (Path.file (filename ++ suffix)) = some c) := by
  have key := fun b => transcode_guard Err.wrap env fs filename (filename ++ suffix) keep
    force b
  have hr' : r = transcode Err.wrap env fs filename (filename ++ suffix) keep force body := by
    rcases hr with ⟨rfl, rfl⟩ | ⟨rfl, rfl⟩
    · rw [CompressFile_eq]
    · rw [XflateCompressFile_eq]
  rw [hr']
  refine ⟨(key body).1, ?_⟩
  intro hf hs
  exact (key body).2 hf (by simpa using hs)

/-- Witness for C3: `CompressFile` without `force` next to an existing `a.txt.gz`. -/
theorem overwrite_guard_witness :
    (CompressFile storedCodec (Env.quiet 7 0 []) demoFSOld (ascii "a.txt") (ascii ".gz") 5
        false false true false).err = some Err.outputExists
      ∧ (CompressFile storedCodec (Env.quiet 7 0 []) demoFSOld (ascii "a.txt") (ascii ".gz") 5
        false false true false).trace = [] :=
  have h := (overwrite_guard storedCodec (Env.quiet 7 0 []) demoFSOld (ascii "a.txt")
    (ascii ".gz") 5 false false true false _ _ (Or.inl ⟨rfl, rfl⟩)).1 (by decide) rfl
  ⟨h.2.2.2 (by decide) rfl rfl, h.2.1⟩

/-- Retention, as far as it holds on every input: in every run of `CompressFile`,
`XflateCompressFile` or `DecompressFile`, with `keep` true no file is removed and the
source path still exists afterwards; a removal happens only with `keep` false, only of the
source, and only as the last change after the temporary file was renamed onto the
destination; and on every exit without promotion the source is as it was. What is kept
under the source path is the subject of `source_kept_when_distinct`. -/
theorem source_retention (cx : Codec) (env : Env) (fs : FS) (filename suffix : Bytes)
    (level : Int) (keep force named verbose : Bool) (r : Outcome) (dest : Bytes)
    (hr : (r = CompressFile cx env fs filename suffix level keep force named verbose
            ∧ dest = filename ++ suffix)
        ∨ (r = XflateCompressFile cx env fs filename suffix level keep force named verbose
            ∧ dest = filename ++ suffix)
        ∨ (r = DecompressFile cx env fs filename suffix keep force verbose
            ∧ dest = trimSuffix filename suffix)) :
    (keep = true →
        (∀ p, Event.removed p ∉ r.trace)
        ∧ (fs (Path.file filename) ≠ none → r.fs (Path.file filename) ≠ none))
      ∧ (∀ p, Event.removed p ∈ r.trace →
          p = filename ∧ keep = false ∧ ∃ c,
            r.trace = [Event.tempCreated env.tmpId, Event.promoted env.tmpId dest c,
              Event.removed filename])
      ∧ ((∀ d c, Event.promoted env.tmpId d c ∉ r.trace) →
          r.fs (Path.file filename) = fs (Path.file filename)) := by
  rcases hr with ⟨rfl, rfl⟩ | ⟨rfl, rfl⟩ | ⟨rfl, rfl⟩
  · rw [CompressFile_eq]
    exact transcode_keeps_source _ _ _ _ _ _ _ _
  · rw [XflateCompressFile_eq]
    exact transcode_keeps_source _ _ _ _ _ _ _ _
  · rw [DecompressFile_eq]
    exact transcode_keeps_source _ _ _ _ _ _ _ _

/-- An instance of `source_retention`: `DecompressFile` with `keep` false removes `data.gz`
after the promotion of `data`. -/
theorem source_retention_witness :
    ∃ c, (DecompressFile storedCodec (Env.quiet 7 0 []) (FS.single (ascii "data.gz") demoGzip)
        (ascii "data.gz") (ascii ".gz") false false false).trace
      = [Event.tempCreated (Env.quiet 7 0 []).tmpId,
          Event.promoted (Env.quiet 7 0 []).tmpId (trimSuffix (ascii "data.gz") (ascii ".gz")) c,
          Event.removed (ascii "data.gz")] :=
  ((source_retention storedCodec (Env.quiet 7 0 []) (FS.single (ascii "data.gz") demoGzip)
    (ascii "data.gz") (ascii ".gz") 0 false false false false _ _
    (Or.inr (Or.inr ⟨rfl, rfl⟩))).2.1 (ascii "data.gz") (by decide)).2.2

/-- C9, the failing run. `data` holds a gzip stream and does not end in `.gz`, so the
destination `trimSuffix data .gz` is `data` itself; with `force` true and `keep` false
`DecompressFile` returns no error, having renamed the output onto the source and then
removed that very path: no file `data` is left. -/
theorem decompress_unsuffixed_removes_output :
    trimSuffix (ascii "data") (ascii ".gz") = ascii "data"
      ∧ (DecompressFile storedCodec (Env.quiet 7 0 []) (FS.single (ascii "data") demoGzip)
          (ascii "data") (ascii ".gz") false true false).err = none
      ∧ (DecompressFile storedCodec (Env.quiet 7 0 []) (FS.single (ascii "data") demoGzip)
          (ascii "data") (ascii ".gz") false true false).trace
        = [Event.tempCreated 7, Event.promoted 7 (ascii "data") (ascii "hello world"),
            Event.removed (ascii "data")]
      ∧ (DecompressFile storedCodec (Env.quiet 7 0 []) (FS.single (ascii "data") demoGzip)
          (ascii "data") (ascii ".gz") false true false).fs (Path.file (ascii "data"))
        = none := by
  decide

/-- C1. Round trip: let the external coders be inverse to each other on payloads and accept
levels 1 to 9. For a source holding `B`, a level in 1..9 and a non-empty suffix, with
`CompressFile` (plain framing) as with `XflateCompressFile` (chunked framing): when no
call fails, the temporary name is free, no overwrite conflict exists and the embedded name
is Latin-1, compression succeeds; whenever compression succeeded the destination
`filename+suffix` exists, every successful `DecompressFile` of it leaves exactly `B` under
`filename`, and `DecompressFile` does succeed when no call fails, the temporary name is
free, no overwrite conflict exists and the embedded name is shorter than the 512 bytes
the reader accepts. -/
theorem compress_decompress_roundtrip (cx : Codec) (hinv : cx.Inverse) (env1 env2 : Env)
    (fs : FS) (filename suffix : Bytes) (level : Int)
    (keep force named verbose keep2 force2 verbose2 : Bool) (B : Bytes) (r1 r2 : Outcome)
    (hlevel : 1 ≤ level ∧ level ≤ 9) (hB : fs (Path.file filename) = some B)
    (hsuffix : suffix ≠ [])
    (hr1 : r1 = CompressFile cx env1 fs filename suffix level keep force named verbose
        ∨ r1 = XflateCompressFile cx env1 fs filename suffix level keep force named verbose)
    (hr2 : r2 = DecompressFile cx env2 r1.fs (filename ++ suffix) suffix keep2 force2
        verbose2) :
    ((∀ s, env1.fails s = false) → env1.room = none → fs (Path.temp env1.tmpId) = none →
        (force = true ∨ fs (Path.file (filename ++ suffix)) = none) →
        (named = true → ∀ v ∈ runes (filepathBase filename), 1 ≤ v ∧ v ≤ 255) →
        r1.err = none)
      ∧ (r1.err = none →
          (∃ gz, r1.fs (Path.file (filename ++ suffix)) = some gz)
          ∧ (r2.err = none → r2.fs (Path.file filename) = some B)
          ∧ ((∀ s, env2.fails s = false) → env2.room = none →
              r1.fs (Path.temp env2.tmpId) = none → (force2 = true ∨ keep = false) →
              (runes (if named then filepathBase filename else [])).length < 512 →
              r2.err = none ∧ r2.fs (Path.file filename) = some B)) := by
  have hsrc : (fs (Path.file filename)).isSome = true := by simp [hB]
  have hlok := hinv.1 level hlevel.1 hlevel.2
  have hname : ∀ h : Header, h.Name = (if named then filepathBase filename else []) →
      (named = true → ∀ v ∈ runes (filepathBase filename), 1 ≤ v ∧ v ≤ 255) →
      ∀ v ∈ runes h.Name, 1 ≤ v ∧ v ≤ 255 := by
    intro h hN hv
    rw [hN]
    cases named
    · intro v hm; simp [runes, runesFrom] at hm
    · exact hv rfl
  subst hr2
  rcases hr1 with rfl | rfl
  · rw [CompressFile_eq, hB]
    simp only [Option.getD_some]
    have hbody := fun c hb => gunzip_compressBody cx hinv env1 B filename level named c hb
    constructor
    · intro hq hroom hfree hguard hv
      obtain ⟨c, hc⟩ := compressBody_ok cx env1 B filename level named hq hroom hlok
        (hname _ (compressHeader_fields env1 filename named).2.2 hv)
      exact transcode_quiet _ _ _ _ _ _ _ _ c hq hsrc hfree hguard hc
    · intro hok
      have h := compress_then_decompress cx env1 env2 fs filename suffix keep force named
        keep2 force2 verbose2 B _ hbody hsuffix hok
      refine ⟨h.1, h.2.1, ?_⟩
      intro hq hroom hfree hguard hlen
      have := h.2.2 hq hroom hfree hguard hlen
      exact ⟨this, h.2.1 this⟩
  · rw [XflateCompressFile_eq, hB]
    simp only [Option.getD_some]
    have hbody := fun c hb => gunzip_xflateBody cx hinv env1 B filename level named c hb
    constructor
    · intro hq hroom hfree hguard hv
      obtain ⟨c, hc⟩ := xflateBody_ok cx env1 B filename level named hq hroom hlok
        (hname _ (xflateHeader_fields env1 filename named).2.2 hv)
      exact transcode_quiet _ _ _ _ _ _ _ _ c hq hsrc hfree hguard hc
    · intro hok
      have h := compress_then_decompress cx env1 env2 fs filename suffix keep force named
        keep2 force2 verbose2 B _ hbody hsuffix hok
      refine ⟨h.1, h.2.1, ?_⟩
      intro hq hroom hfree hguard hlen
      have := h.2.2 hq hroom hfree hguard hlen
      exact ⟨this, h.2.1 this⟩

/-- Witness for C1: `a.txt`, holding `hello world`, is compressed in chunked framing at
level 5 with the stand-in coders and decompressed again. -/
theorem compress_decompress_roundtrip_witness :
    (XflateCompressFile storedCodec (Env.quiet 7 1700000000 [4]) demoFS (ascii "a.txt")
        (ascii ".gz") 5 false false true false).err = none
      ∧ (DecompressFile storedCodec (Env.quiet 8 0 [])
          (XflateCompressFile storedCodec (Env.quiet 7 1700000000 [4]) demoFS (ascii "a.txt")
            (ascii ".gz") 5 false false true false).fs
          (ascii "a.txt" ++ ascii ".gz") (ascii ".gz") false false false).fs
            (Path.file (ascii "a.txt")) = some (ascii "hello world") :=
  have h := compress_decompress_roundtrip storedCodec storedCodec_inverse
    (Env.quiet 7 1700000000 [4]) (Env.quiet 8 0 []) demoFS (ascii "a.txt") (ascii ".gz") 5 false false true false
    false false false (ascii "hello world") _ _ ⟨by decide, by decide⟩ (by decide)
    (by decide) (Or.inr rfl) rfl
  have h1 := h.1 (fun _ => rfl) rfl (by decide) (Or.inr (by decide)) (fun _ => by decide)
  ⟨h1, ((h.2 h1).2.2 (fun _ => rfl) rfl (by decide) (Or.inr rfl) (by decide)).2⟩

/-- C6. Chunked footer correctness: whatever the source `B` holds, however `io.Copy` cuts
it into writes and whatever the XFLATE writer emits, the last 8 bytes of the file that
`XflateCompressFile` promotes are the IEEE CRC32 of the whole of `B` as 4 little-endian
bytes followed by the length of `B` modulo `2^32` as 4 little-endian bytes; for
`hello world` these are `85 11 4A 0D 0B 00 00 00`. -/
theorem xflate_footer (cx : Codec) (env : Env) (fs : FS) (filename suffix : Bytes)
    (level : Int) (keep force named verbose : Bool) (B d c : Bytes)
    (hB : fs (Path.file filename) = some B)
    (h : Event.promoted env.tmpId d c
      ∈ (XflateCompressFile cx env fs filename suffix level keep force named verbose).trace) :
    c.drop (c.length - 8)
        = [crc32 B % 256, crc32 B / 256 % 256, crc32 B / 65536 % 256,
            crc32 B / 16777216 % 256,
            B.length % 4294967296 % 256, B.length % 4294967296 / 256 % 256,
            B.length % 4294967296 / 65536 % 256, B.length % 4294967296 / 16777216 % 256]
      ∧ ([crc32 (ascii "hello world") % 256, crc32 (ascii "hello world") / 256 % 256,
            crc32 (ascii "hello world") / 65536 % 256,
            crc32 (ascii "hello world") / 16777216 % 256,
            (ascii "hello world").length % 4294967296 % 256,
            (ascii "hello world").length % 4294967296 / 256 % 256,
            (ascii "hello world").length % 4294967296 / 65536 % 256,
            (ascii "hello world").length % 4294967296 / 16777216 % 256]
          = [0x85, 0x11, 0x4A, 0x0D, 0x0B, 0x00, 0x00, 0x00]) := by
  refine ⟨?_, by decide⟩
  rw [XflateCompressFile_eq, hB] at h
  simp only [Option.getD_some] at h
  obtain ⟨hb, _, _⟩ := transcode_promoted _ _ _ _ _ _ _ _ _ _ h
  obtain ⟨_, _, _, hc⟩ := xflateBody_success hb
  have hc2 : c = (headerPrefix (xflateHeader env filename named)
      ++ optionalFields (xflateHeader env filename named) ++ cx.xflate level B)
      ++ [crc32 B % 256, crc32 B / 256 % 256, crc32 B / 65536 % 256,
            crc32 B / 16777216 % 256,
            B.length % 4294967296 % 256, B.length % 4294967296 / 256 % 256,
            B.length % 4294967296 / 65536 % 256, B.length % 4294967296 / 16777216 % 256] := by
    rw [hc]
    simp only [putUint32_div, List.append_assoc, List.cons_append, List.nil_append]
  rw [hc2]
  exact drop_append_suffix _ _

/-- Witness for C6: the file promoted for `hello world`, read in pieces of 4 bytes, ends
with `85 11 4A 0D 0B 00 00 00`. -/
theorem xflate_footer_witness :
    Event.promoted 7 (ascii "a.txt.gz") demoXflateFile ∈ (demoXflate true).trace
      ∧ demoXflateFile.drop (demoXflateFile.length - 8)
          = [0x85, 0x11, 0x4A, 0x0D, 0x0B, 0x00, 0x00, 0x00] :=
  ⟨by decide,
    ((xflate_footer storedCodec (Env.quiet 7 1700000000 [4, 4]) demoFS (ascii "a.txt")
      (ascii ".gz") 5 false false true false (ascii "hello world") (ascii "a.txt.gz")
      demoXflateFile (by decide) (by decide)).1).trans (by decide)⟩

/-- Witness for the amended C7: the name U+65E5 on a writer that does not fail. -/
theorem writeGzipHeader_encoding_error_witness :
    (writeGzipHeader ⟨[], none⟩ ⟨[], none, 0, [0xE6, 0x97, 0xA5], 3⟩).2.2
        = some Err.nonLatin1
      ∧ (writeGzipHeader ⟨[], none⟩ ⟨[], none, 0, [0xE6, 0x97, 0xA5], 3⟩).2.1 = 10 :=
  have h := writeGzipHeader_encoding_error ⟨[], none⟩ ⟨[], none, 0, [0xE6, 0x97, 0xA5], 3⟩
    rfl (by intro x hx; cases hx) (Or.inl ⟨0x65E5, by decide, Or.inr (by decide)⟩)
  ⟨h.1, h.2.1⟩

/-- C10, what the code does. With `named` false, whatever the source, the file that
`XflateCompressFile` promotes starts with `1F 8B 08 10`, so flag bit 3 is clear and only
the comment follows the fixed part, but bytes 4..7 are `00 09 6E 88`: the Unix seconds of
the zero `time.Time`, reduced modulo `2^32`, not `00 00 00 00`. -/
theorem xflate_unnamed_header (cx : Codec) (env : Env) (fs : FS) (filename suffix : Bytes)
    (level : Int) (keep force verbose : Bool) (d c : Bytes)
    (h : Event.promoted env.tmpId d c
      ∈ (XflateCompressFile cx env fs filename suffix level keep force false verbose).trace) :
    c.take 10 = [0x1F, 0x8B, 0x08, 0x10, 0x00, 0x09, 0x6E, 0x88, 0x00, 0xFF]
      ∧ Nat.testBit 0x10 3 = false
      ∧ (c.drop 10).take 21 = ascii "Encoded using XFLATE" ++ [0] := by
  rw [XflateCompressFile_eq] at h
  obtain ⟨hb, _, _⟩ := transcode_promoted _ _ _ _ _ _ _ _ _ _ h
  obtain ⟨_, _, _, hc⟩ := xflateBody_success hb
  have hh : xflateHeader env filename false
      = ⟨ascii "Encoded using XFLATE", none, zeroTimeUnix, [], gzipOSUnknown⟩ := rfl
  have hp : headerPrefix ⟨ascii "Encoded using XFLATE", none, zeroTimeUnix, [], gzipOSUnknown⟩
      = [0x1F, 0x8B, 0x08, 0x10, 0x00, 0x09, 0x6E, 0x88, 0x00, 0xFF] := by decide
  have ho : optionalFields ⟨ascii "Encoded using XFLATE", none, zeroTimeUnix, [], gzipOSUnknown⟩
      = ascii "Encoded using XFLATE" ++ [0] := by decide
  rw [hc, hh, hp, ho]
  simp only [List.append_assoc]
  exact ⟨rfl, by decide, rfl⟩

/-- C10, the failing run: `a.txt` compressed in chunked framing with `named` false. -/
theorem xflate_unnamed_header_witness :
    Event.promoted 7 (ascii "a.txt.gz") demoUnnamedFile ∈ (demoXflate false).trace
      ∧ demoUnnamedFile.take 10
          = [0x1F, 0x8B, 0x08, 0x10, 0x00, 0x09, 0x6E, 0x88, 0x00, 0xFF] :=
  ⟨by decide,
    (xflate_unnamed_header storedCodec (Env.quiet 7 1700000000 [4, 4]) demoFS (ascii "a.txt")
      (ascii ".gz") 5 false false false (ascii "a.txt.gz") demoUnnamedFile (by decide)).1⟩

/-- C11. Extra field limit: for every byte slice `b` and every writer, `writeBytes` returns
the `Extra data is too large` error exactly when `b` has more than 65535 bytes, and then
the writer is as before; when `b` has at most 65535 bytes and the writer does not fail,
`writeBytes` succeeds and appends the length of `b` as 2 little-endian bytes followed by
the bytes of `b`, `2 + len(b)` bytes in all. -/
theorem writeBytes_limit (w : Writer) (b : Bytes) :
    ((writeBytes w b).2 = some Err.extraTooLarge ↔ b.length > 65535)
      ∧ (b.length > 65535 → (writeBytes w b).1 = w)
      ∧ (b.length ≤ 65535 → w.room = none →
          writeBytes w b
              = (⟨w.out ++ ([b.length % 256, b.length / 256 % 256] ++ b), none⟩, none)
            ∧ ([b.length % 256, b.length / 256 % 256] ++ b).length = 2 + b.length) := by
  have hlarge : b.length > 65535 → writeBytes w b = (w, some Err.extraTooLarge) := by
    intro h
    have h' : b.length > 0xffff := h
    simp only [writeBytes, h', if_true]
  refine ⟨⟨?_, fun h => by rw [hlarge h]⟩, fun h => by rw [hlarge h], ?_⟩
  · intro he
    by_contra hle
    exact writeBytes_small_error w b (by omega) he
  · intro hle hw
    obtain ⟨o, room⟩ := w
    simp only at hw
    subst hw
    have hhi : b.length / 256 % 256 = b.length / 256 := by omega
    rw [hhi]
    refine ⟨writeBytes_ok o b hle, ?_⟩
    simp only [List.length_append, List.length_cons, List.length_nil]
    try omega

/-- Witness for C11: a slice of 65536 bytes is refused with nothing written, even by a
writer with no room left; a slice of 3 bytes is written after its length `03 00`. -/
theorem writeBytes_limit_witness :
    (writeBytes ⟨[1], some 0⟩ (List.replicate 65536 0)).2 = some Err.extraTooLarge
      ∧ (writeBytes ⟨[1], some 0⟩ (List.replicate 65536 0)).1 = ⟨[1], some 0⟩
      ∧ writeBytes ⟨[1], none⟩ [7, 8, 9]
          = (⟨[1] ++ ([[7, 8, 9].length % 256, [7, 8, 9].length / 256 % 256] ++ [7, 8, 9]),
              none⟩, none) :=
  ⟨(writeBytes_limit ⟨[1], some 0⟩ (List.replicate 65536 0)).1.mpr
      (by simp only [List.length_replicate]; decide),
    (writeBytes_limit ⟨[1], some 0⟩ (List.replicate 65536 0)).2.1
      (by simp only [List.length_replicate]; decide),
    ((writeBytes_limit ⟨[1], none⟩ [7, 8, 9]).2.2 (by decide) rfl).1⟩

/-- C4, the failing run. `data` holds a gzip stream and does not end in `.gz`, so the
destination `trimSuffix data .gz` is `data` itself; with `force` true and `keep` true
`DecompressFile` returns no error and removes nothing, yet it has renamed the output onto
the source: `data` now holds the plaintext `hello world` and the compressed source that
`keep` was to retain is gone. -/
theorem decompress_unsuffixed_keep_replaces_source :
    trimSuffix (ascii "data") (ascii ".gz") = ascii "data"
      ∧ (FS.single (ascii "data") demoGzip) (Path.file (ascii "data")) = some demoGzip
      ∧ (DecompressFile storedCodec (Env.quiet 7 0 []) (FS.single (ascii "data") demoGzip)
          (ascii "data") (ascii ".gz") true true false).err = none
      ∧ (DecompressFile storedCodec (Env.quiet 7 0 []) (FS.single (ascii "data") demoGzip)
          (ascii "data") (ascii ".gz") true true false).trace
        = [Event.tempCreated 7, Event.promoted 7 (ascii "data") (ascii "hello world")]
      ∧ (DecompressFile storedCodec (Env.quiet 7 0 []) (FS.single (ascii "data") demoGzip)
          (ascii "data") (ascii ".gz") true true false).fs (Path.file (ascii "data"))
        = some (ascii "hello world")
      ∧ ascii "hello world" ≠ demoGzip := by
  decide

end Klzip
